import Mathlib

/-!
# Verification of the 1pad signal-generation and trade-simulation engine

A shallow embedding of the core of the `1pad` repository:

* `strategy/pivots.py`   — pivot high/low detection (`detect_pivots`);
* `strategy/fibs.py`     — Fibonacci retracement levels (`compute_fib_levels`);
* `strategy/signals.py`  — the strategy dispatcher (`generate_signal`), the
  SMA crossover strategy (`_sma_generate_signal`), the rolling close-based
  market-structure/BOS detector (`_compute_ms_and_bos`) and the 1pad
  zone strategy (`_onepad_generate_signal`);
* `execution/risk.py`    — position sizing (`compute_equal_sized_orders`,
  `compute_position_size`);
* `backtest/engine.py`   — the trade simulator (`_simulate_trade`,
  `_pnl_for_trade`) and the backtest loop of `run_backtest`.

Python floats are modelled as exact rationals (`ℚ`), pandas DataFrames as
lists of candles addressed by position (the source's timestamp index is
strictly increasing, hence order-isomorphic to positions), and Python
`raise ValueError` as `Except.error`.  All definitions are executable.
-/

/-- One OHLCV bar.  `ts` is the (integer) timestamp; `opn` models the
`open` column (a Lean keyword), `vol` the `volume` column; neither is read
by the core logic. -/
structure Candle where
  ts : ℤ
  opn : ℚ
  high : ℚ
  low : ℚ
  close : ℚ
  vol : ℚ
  deriving Repr, DecidableEq, Inhabited

/-- The configuration keys read by the core.  `strategy` and
`num_limit_orders` model `config.get(...)` lookups that may be absent
(the source defaults them to `"1pad"` and `4`); `account_size` and
`risk_pct` are mandatory keys in `run_backtest`. -/
structure Config where
  strategy : Option String
  num_limit_orders : Option ℤ
  account_size : ℚ
  risk_pct : ℚ
  deriving Repr, DecidableEq, Inhabited

/-! ## execution/risk.py -/

/-- `compute_equal_sized_orders` from `execution/risk.py`: equal sizing so
that if all entries fill and price hits `stop_loss` the total loss is
`account_size * risk_pct`.  `ValueError` is modelled as `Except.error`. -/
def compute_equal_sized_orders (entries : List ℚ) (stop_loss : ℚ)
    (account_size : ℚ) (risk_pct : ℚ) : Except String (List ℚ) :=
  if entries = [] then .error "No entry prices provided."
  else
    let risk_amount := account_size * risk_pct
    if risk_amount ≤ 0 then .error "Risk amount must be positive."
    else
      let diffs := entries.map (fun e => |e - stop_loss|)
      let denom := diffs.sum
      if denom = 0 then
        .error "Stop loss equals all entry prices, cannot size positions."
      else
        .ok (entries.map (fun _ => risk_amount / denom))

/-- `compute_position_size` from `execution/risk.py`: single-entry wrapper
around `compute_equal_sized_orders` (returns `sizes[0]`). -/
def compute_position_size (account_size : ℚ) (risk_pct : ℚ)
    (entry_price : ℚ) (stop_loss : ℚ) : Except String ℚ :=
  (compute_equal_sized_orders [entry_price] stop_loss account_size risk_pct).map
    (fun sizes => sizes.headD 0)

/-! ## List helpers: Python `max()` / `min()` over a nonempty sequence,
and windows `l[s : s+k]` as `(l.drop s).take k`. -/

/-- Python's built-in `max` over a sequence: `none` on the empty sequence
(where the builtin raises `ValueError`). -/
def pyMax : List ℚ → Option ℚ
  | [] => none
  | a :: t => some (t.foldl max a)

/-- Python's built-in `min` over a sequence. -/
def pyMin : List ℚ → Option ℚ
  | [] => none
  | a :: t => some (t.foldl min a)

/-! ## strategy/pivots.py -/

/-- `detect_pivots` from `strategy/pivots.py`.  The source returns the
mutated DataFrame together with NaN-masked price series; the information
content is the pair of boolean flag columns `pivot_high` / `pivot_low`
returned here (the masked price series are `high` / `low` restricted to
the flags).  A bar `i` is flagged iff `left ≤ i < n - right` and its
high (resp. low) equals `max` (resp. `min`) of the window
`[i-left, i+right]`, the source's `highs[i] == max(high_segment)`. -/
def detect_pivots (df : List Candle) (left right : ℕ) :
    List Bool × List Bool :=
  if df.length = 0 then ([], [])
  else
    let n := df.length
    let highs := df.map Candle.high
    let lows := df.map Candle.low
    let pivot_high := (List.range n).map fun i =>
      decide (left ≤ i) && decide (i + right < n) &&
        (match pyMax ((highs.drop (i - left)).take (left + right + 1)) with
         | some m => decide (highs.getD i 0 = m)
         | none => false)
    let pivot_low := (List.range n).map fun i =>
      decide (left ≤ i) && decide (i + right < n) &&
        (match pyMin ((lows.drop (i - left)).take (left + right + 1)) with
         | some m => decide (lows.getD i 0 = m)
         | none => false)
    (pivot_high, pivot_low)

/-! ## strategy/fibs.py -/

/-- `compute_fib_levels` from `strategy/fibs.py`, per single ratio: the
source builds a dict mapping `str(lvl)` to this price for each requested
ratio; the stringified key carries no extra information, so the embedding
is the price function itself. -/
def compute_fib_level (swing_low swing_high : ℚ) (direction : String)
    (lvl : ℚ) : ℚ :=
  if direction = "long" then swing_high - (swing_high - swing_low) * lvl
  else swing_low + (swing_high - swing_low) * lvl

/-! ## strategy/signals.py: `_compute_ms_and_bos` -/

/-- The swing-high candidate test of `_compute_ms_and_bos`: the close at
`i` strictly exceeds the maximum close of the `left` bars before and of
the `right` bars after (`c > closes[i-left:i].max() and
c > closes[i+1:i+1+right].max()`).  With `left = 0` or `right = 0` the
source would call `max()` on an empty slice and raise; the claims only
concern `left, right ≥ 1`. -/
def is_swing_high (closes : List ℚ) (left right i : ℕ) : Bool :=
  match pyMax ((closes.drop (i - left)).take left),
        pyMax ((closes.drop (i + 1)).take right) with
  | some m1, some m2 =>
      decide (m1 < closes.getD i 0) && decide (m2 < closes.getD i 0)
  | _, _ => false

/-- The loop `for i in range(left, n - right)` collecting swing-high
candidate positions. -/
def swing_high_positions (closes : List ℚ) (left right : ℕ) : List ℕ :=
  (List.range closes.length).filter fun i =>
    decide (left ≤ i) && decide (i + right < closes.length) &&
      is_swing_high closes left right i

/-- The inner loop of `_compute_ms_and_bos`: scanning `j` upward from
`pivot + 1` and overwriting on every bar with
`closes[j-1] <= level < closes[j]`, hence returning the LAST such upward
crossing of the pivot's close level (not the first bar above it). -/
def bos_for_pivot (closes : List ℚ) (pivot : ℕ) : Option ℕ :=
  let level := closes.getD pivot 0
  ((List.range closes.length).filter fun j =>
    decide (pivot + 1 ≤ j) && decide (closes.getD (j - 1) 0 ≤ level) &&
      decide (level < closes.getD j 0)).getLast?

/-- The accumulator update of `_compute_ms_and_bos`'s selection loop:
replace the held pair only when this pivot's BOS bar is strictly later. -/
def select_bos_step (closes : List ℚ) (acc : Option (ℕ × ℕ)) (p : ℕ) :
    Option (ℕ × ℕ) :=
  match bos_for_pivot closes p with
  | none => acc
  | some b =>
    match acc with
    | none => some (p, b)
    | some (p0, b0) => if b0 < b then some (p, b) else some (p0, b0)

/-- The selection loop of `_compute_ms_and_bos` over all candidate swings. -/
def select_last_bos (closes : List ℚ) (swings : List ℕ) : Option (ℕ × ℕ) :=
  swings.foldl (select_bos_step closes) none

/-- `_compute_ms_and_bos` from `strategy/signals.py`.  Indices are
positions into the candle list; the source returns the corresponding
timestamps of its (strictly increasing) index, an order isomorphism. -/
def compute_ms_and_bos (df : List Candle) (left right : ℕ) :
    Option (ℚ × ℕ × ℕ) :=
  let n := df.length
  if n < left + right + 1 then none
  else
    let closes := df.map Candle.close
    match select_last_bos closes (swing_high_positions closes left right) with
    | none => none
    | some (p, b) => some (closes.getD p 0, p, b)

/-- Modelled from the claim's words only, for comparison with the source:
"a BOS is the first bar after the swing whose close exceeds the swing's
close". -/
def spec_first_bos_after (closes : List ℚ) (pivot : ℕ) : Option ℕ :=
  ((List.range closes.length).filter fun j =>
    decide (pivot + 1 ≤ j) &&
      decide (closes.getD pivot 0 < closes.getD j 0)).head?

/-! ## strategy/signals.py: signal objects and the SMA strategy -/

/-- The `meta` debug dict attached to a 1pad signal (timestamps are again
modelled by positions). -/
structure OnepadMeta where
  bos_index : ℕ
  pivot_high_index : ℕ
  pivot_low_index : ℕ
  structure_level : ℚ
  fib_0 : ℚ
  fib_0236 : ℚ
  fib_0618 : ℚ
  fib_1 : ℚ
  net_size_pct : ℚ
  net_top : ℚ
  net_bottom : ℚ
  net_center : ℚ
  deriving Repr, DecidableEq, Inhabited

/-- The `meta` field of a signal dict: the SMA strategy stores its two
moving averages, the 1pad strategy its debug block. -/
inductive SignalMeta where
  | smaMeta (sma_fast sma_slow : ℚ)
  | onepadMeta (m : OnepadMeta)
  deriving Repr, DecidableEq, Inhabited

/-- The signal dict contract of `generate_signal`. -/
structure Signal where
  strategy : String
  signal_type : String
  direction : String
  entries : List ℚ
  stop_loss : ℚ
  take_profit : ℚ
  meta : SignalMeta
  deriving Repr, DecidableEq, Inhabited

/-- pandas `closes.rolling(w).mean()` at position `i`: defined (non-NaN)
exactly when at least `w` observations exist, i.e. `w ≤ i + 1`; NaN is
modelled as `none`.  Only called at in-range positions by the source. -/
def rolling_mean (closes : List ℚ) (w : ℕ) (i : ℕ) : Option ℚ :=
  if w ≤ i + 1 then some (((closes.drop (i + 1 - w)).take w).sum / (w : ℚ))
  else none

/-- `_sma_generate_signal` from `strategy/signals.py`: 10/50 SMA bullish
crossover; the config argument is not read by the source. -/
def sma_generate_signal (df : List Candle) (_config : Config) :
    Option Signal :=
  if df.length < 51 then none
  else
    let closes := df.map Candle.close
    let i := df.length - 1
    match rolling_mean closes 10 i, rolling_mean closes 50 i,
          rolling_mean closes 10 (i - 1), rolling_mean closes 50 (i - 1) with
    | some fast_now, some slow_now, some fast_prev, some slow_prev =>
      if fast_now > slow_now ∧ fast_prev ≤ slow_prev then
        let entry := closes.getD i 0
        some { strategy := "sma", signal_type := "market_entry",
               direction := "long", entries := [entry],
               stop_loss := entry * (97/100),
               take_profit := entry * (103/100),
               meta := .smaMeta fast_now slow_now }
      else none
    | _, _, _, _ => none

/-! ## strategy/signals.py: `_onepad_generate_signal` -/

/-- The Fibonacci/net-window block of `_onepad_generate_signal`
(from `fibs = compute_fib_levels(...)` through the
`if zone_bottom >= zone_top: return None` guard). -/
structure ZoneData where
  fib_0 : ℚ
  fib_0236 : ℚ
  fib_0618 : ℚ
  fib_1 : ℚ
  net_size_pct : ℚ
  net_top : ℚ
  net_bottom : ℚ
  deriving Repr, DecidableEq, Inhabited

/-- Fibonacci levels, net window, clamping into the swing range, and the
degenerate-zone guard of `_onepad_generate_signal`. -/
def onepad_zone_of_swing (swing_low swing_high : ℚ) : Option ZoneData :=
  let fib_0 := compute_fib_level swing_low swing_high "long" 0
  let fib_0236 := compute_fib_level swing_low swing_high "long" (236/1000)
  let fib_0618 := compute_fib_level swing_low swing_high "long" (618/1000)
  let fib_1 := compute_fib_level swing_low swing_high "long" 1
  if fib_1 = 0 then none
  else
    let delta_pct := |(fib_0236 - fib_1) / fib_1| * 100
    let net_size_pct := delta_pct * (375/1000)
    let half_net_pct := net_size_pct / 2
    let center_price := fib_0618
    let zone_top0 := center_price * (1 + half_net_pct / 100)
    let zone_bottom0 := center_price * (1 - half_net_pct / 100)
    let upper_bound := max fib_0 fib_1
    let lower_bound := min fib_0 fib_1
    let zone_top := min zone_top0 upper_bound
    let zone_bottom := max zone_bottom0 lower_bound
    if zone_bottom ≥ zone_top then none
    else some ⟨fib_0, fib_0236, fib_0618, fib_1, net_size_pct, zone_top, zone_bottom⟩

/-- `_onepad_generate_signal` from `strategy/signals.py`.  Timestamp
comparisons on the DataFrame index are modelled by position comparisons
(the index is strictly increasing).  The emission deliberately does NOT
test whether the current bar trades into the zone (the `touches_now`
check was removed from the source). -/
def onepad_generate_signal (df : List Candle) (config : Config) :
    Option Signal :=
  if df.length < 55 then none
  else
    let n := df.length
    let current_pos := n - 1
    match compute_ms_and_bos df 4 4 with
    | none => none
    | some (structure_level, _, bos_pos) =>
      if current_pos ≤ bos_pos then none
      else
        let flags := detect_pivots df 1 1
        let ph_candidates := (List.range n).filter fun j =>
          flags.1.getD j false && decide (bos_pos < j) &&
            decide (j < current_pos)
        match ph_candidates.getLast? with
        | none => none
        | some ph_pos =>
          let pl_candidates := (List.range n).filter fun j =>
            flags.2.getD j false && decide (j < bos_pos)
          match pl_candidates.getLast? with
          | none => none
          | some pl_pos =>
            let swing_low := (df.map Candle.low).getD pl_pos 0
            let swing_high := (df.map Candle.high).getD ph_pos 0
            if swing_high ≤ swing_low then none
            else
              match onepad_zone_of_swing swing_low swing_high with
              | none => none
              | some z =>
                let num_orders := config.num_limit_orders.getD 4
                if num_orders ≤ 0 then none
                else
                  let entries :=
                    if num_orders = 1 then [z.fib_0618]
                    else
                      let step := (z.net_top - z.net_bottom) /
                        ((num_orders - 1 : ℤ) : ℚ)
                      (List.range num_orders.toNat).map
                        (fun (i : ℕ) => z.net_top - step * (i : ℚ))
                  some { strategy := "1pad", signal_type := "limit_bundle",
                         direction := "long", entries := entries,
                         stop_loss := z.fib_1, take_profit := z.fib_0236,
                         meta := .onepadMeta {
                           bos_index := bos_pos,
                           pivot_high_index := ph_pos,
                           pivot_low_index := pl_pos,
                           structure_level := structure_level,
                           fib_0 := z.fib_0, fib_0236 := z.fib_0236,
                           fib_0618 := z.fib_0618, fib_1 := z.fib_1,
                           net_size_pct := z.net_size_pct,
                           net_top := z.net_top, net_bottom := z.net_bottom,
                           net_center := z.fib_0618 } }

/-! ## strategy/signals.py: the dispatcher -/

/-- `generate_signal` from `strategy/signals.py`: dispatch on the
lower-cased strategy name (`config.get("strategy", "1pad").lower()`);
an unknown name yields no signal. -/
def generate_signal (df : List Candle) (config : Config) : Option Signal :=
  let strategy_name := (config.strategy.getD "1pad").toLower
  if strategy_name = "sma" then sma_generate_signal df config
  else if strategy_name = "1pad" then onepad_generate_signal df config
  else none

/-! ## backtest/engine.py -/

/-- The bar loop of `_simulate_trade` (`for i in range(start_idx + 1,
len(df))`), scanning from index `i`: on each bar the stop-loss side is
checked before the take-profit side; when no bar triggers, the trade
force-closes at the last bar's close (`len(df) - 1`,
`df["close"].iloc[-1]`; the engine never calls this on an empty frame). -/
def trade_scan (df : List Candle) (is_long : Bool)
    (stop_loss take_profit : ℚ) (i : ℕ) : ℕ × ℚ :=
  if _h : i < df.length then
    let c := df.getD i default
    if is_long then
      if c.low ≤ stop_loss then (i, stop_loss)
      else if c.high ≥ take_profit then (i, take_profit)
      else trade_scan df is_long stop_loss take_profit (i + 1)
    else
      if c.high ≥ stop_loss then (i, stop_loss)
      else if c.low ≤ take_profit then (i, take_profit)
      else trade_scan df is_long stop_loss take_profit (i + 1)
  else
    (df.length - 1, ((df.map Candle.close).getLast?).getD 0)
termination_by df.length - i

/-- `_simulate_trade` from `backtest/engine.py`.  The `entry_price`
parameter is carried but, as in the source, never read. -/
def simulate_trade (df : List Candle) (start_idx : ℕ) (direction : String)
    (_entry_price stop_loss take_profit : ℚ) : ℕ × ℚ :=
  trade_scan df (direction == "long") stop_loss take_profit (start_idx + 1)

/-- `_pnl_for_trade` from `backtest/engine.py`. -/
def pnl_for_trade (direction : String)
    (entry_price exit_price size : ℚ) : ℚ :=
  if direction = "long" then (exit_price - entry_price) * size
  else (entry_price - exit_price) * size

/-- One closed trade as recorded by `run_backtest` (the union of the
fields the loop writes on the `Trade` object and on `trades_for_view`). -/
structure TradeRec where
  direction : String
  entry_index : ℕ
  exit_index : ℕ
  opened_at : ℤ
  closed_at : ℤ
  entry_price : ℚ
  exit_price : ℚ
  size : ℚ
  pnl : ℚ
  stop_loss : ℚ
  take_profit : ℚ
  deriving Repr, DecidableEq, Inhabited

/-- The `while i < len(df) - 1` scan loop of `run_backtest`.  The source
advances `i = exit_idx + 1` after a resolved trade; `exit_idx > i` always
holds there (proved in the claims below), and the next index is written
`max (exit_idx + 1) (i + 1)` — equal to `exit_idx + 1` — only so the
decrease of `df.length - i` is immediate. -/
def backtest_loop (df : List Candle) (cfg : Config) (i : ℕ)
    (trades : List TradeRec) (balance : ℚ) : List TradeRec × ℚ :=
  if _h : i < df.length - 1 then
    match generate_signal (df.take (i + 1)) cfg with
    | none => backtest_loop df cfg (i + 1) trades balance
    | some sig =>
      if sig.signal_type ≠ "market_entry" then
        backtest_loop df cfg (i + 1) trades balance
      else
        let entry_price := sig.entries.headD 0
        match compute_position_size balance cfg.risk_pct entry_price
            sig.stop_loss with
        | .error _ => backtest_loop df cfg (i + 1) trades balance
        | .ok size =>
          let res := simulate_trade df i sig.direction entry_price
            sig.stop_loss sig.take_profit
          let pnl := pnl_for_trade sig.direction entry_price res.2 size
          let t : TradeRec := {
            direction := sig.direction, entry_index := i,
            exit_index := res.1,
            opened_at := (df.getD i default).ts,
            closed_at := (df.getD res.1 default).ts,
            entry_price := entry_price, exit_price := res.2, size := size,
            pnl := pnl, stop_loss := sig.stop_loss,
            take_profit := sig.take_profit }
          backtest_loop df cfg (max (res.1 + 1) (i + 1)) (trades ++ [t])
            (balance + pnl)
  else (trades, balance)
termination_by df.length - i
decreasing_by all_goals omega

/-- The in-core part of `run_backtest`: data loading, indicator columns,
logging, metrics and the replay viewer are out of scope; the loop starts
at the warm-up offset 50 with `balance = account_size`. -/
def run_backtest (df : List Candle) (cfg : Config) : List TradeRec × ℚ :=
  backtest_loop df cfg 50 [] cfg.account_size

/-! ## Concrete series used as witnesses and counterexamples -/

/-- Closes for a 55-bar 1pad scenario: flat at 10 with a swing-high close
12 at bar 20 and a BOS close 13 at bar 30. -/
def ex_close_1pad (i : ℕ) : ℚ := if i = 20 then 12 else if i = 30 then 13 else 10

/-- Highs: flat at 11; the evaluation bar 54 sits at 10.8–10.9, above the
net zone (≈[9.45, 10.07]) so the signal fires without the bar trading
into the zone. -/
def ex_high_1pad (i : ℕ) : ℚ := if i = 54 then 109/10 else 11

/-- Lows: flat at 9 except the evaluation bar 54. -/
def ex_low_1pad (i : ℕ) : ℚ := if i = 54 then 54/5 else 9

/-- The 55-bar 1pad example series. -/
def ex_df_1pad : List Candle :=
  (List.range 55).map (fun (i : ℕ) =>
    { ts := (i : ℤ), opn := ex_close_1pad i, high := ex_high_1pad i,
      low := ex_low_1pad i, close := ex_close_1pad i, vol := 0 })

/-- A 1pad config with `n` limit orders. -/
def ex_cfg_1pad (n : ℤ) : Config :=
  { strategy := some "1pad", num_limit_orders := some n,
    account_size := 1000, risk_pct := 1/100 }

/-- The signal the 1pad strategy emits on the example series. -/
def ex_sig_1pad (n : ℤ) : Signal :=
  (onepad_generate_signal ex_df_1pad (ex_cfg_1pad n)).getD default

/-- Its meta block. -/
def ex_meta_1pad (n : ℤ) : OnepadMeta :=
  match (ex_sig_1pad n).meta with
  | .onepadMeta m => m
  | _ => default

/-- Closes for the SMA scenarios: flat at 10 with a jump to 20 at bar 50,
which makes the 10-bar average cross the 50-bar average exactly there. -/
def ex_close_sma (i : ℕ) : ℚ := if i = 50 then 20 else 10

/-- An SMA example series of `n` bars (51 for the crossover itself, 53
for a backtest run that opens and closes one trade). -/
def ex_df_sma (n : ℕ) : List Candle :=
  (List.range n).map (fun (i : ℕ) =>
    { ts := (i : ℤ), opn := ex_close_sma i, high := ex_close_sma i + 1,
      low := ex_close_sma i - 1, close := ex_close_sma i, vol := 0 })

/-- An SMA config; `risk` parametrises the sizing-error scenarios. -/
def ex_cfg_sma (name : String) (risk : ℚ) : Config :=
  { strategy := some name, num_limit_orders := none,
    account_size := 1000, risk_pct := risk }

/-- The signal of the 51-bar SMA crossover. -/
def ex_sig_sma : Signal :=
  (sma_generate_signal (ex_df_sma 51) (ex_cfg_sma "sma" (1/100))).getD default

/-- A list of nonnegative rationals has a nonnegative sum. -/
lemma list_sum_nonneg (l : List ℚ) (h : ∀ x ∈ l, 0 ≤ x) : 0 ≤ l.sum := by
  induction l with
  | nil => simp
  | cons a t ih =>
    have ha := h a (by simp)
    have ht := ih (fun x hx => h x (by simp [hx]))
    simp only [List.sum_cons]
    linarith

/-- A list of nonnegative rationals sums to zero iff every member is zero. -/
lemma list_sum_eq_zero_iff (l : List ℚ) (hnn : ∀ x ∈ l, 0 ≤ x) :
    l.sum = 0 ↔ ∀ x ∈ l, x = 0 := by
  induction l with
  | nil => simp
  | cons a t ih =>
    have ha : 0 ≤ a := hnn a (by simp)
    have ht : ∀ x ∈ t, 0 ≤ x := fun x hx => hnn x (by simp [hx])
    have hts : 0 ≤ t.sum := list_sum_nonneg t ht
    simp only [List.sum_cons]
    constructor
    · intro h
      have ha0 : a = 0 := by linarith
      have hts0 : t.sum = 0 := by linarith
      intro x hx
      rcases List.mem_cons.mp hx with h1 | h2
      · simpa [h1] using ha0
      · exact (ih ht).mp hts0 x h2
    · intro h
      have ha0 : a = 0 := h a (by simp)
      have hts0 : t.sum = 0 := (ih ht).mpr (fun x hx => h x (by simp [hx]))
      rw [ha0, hts0, add_zero]

/-- The sizing denominator `Σ |entry - stop|` vanishes iff every entry
equals the stop. -/
lemma sizing_denom_eq_zero_iff (entries : List ℚ) (stop_loss : ℚ) :
    (entries.map (fun e => |e - stop_loss|)).sum = 0 ↔
      ∀ e ∈ entries, e = stop_loss := by
  have hnn : ∀ x ∈ entries.map (fun e => |e - stop_loss|), 0 ≤ x := by
    intro x hx
    simp only [List.mem_map] at hx
    obtain ⟨e, _, rfl⟩ := hx
    exact abs_nonneg _
  rw [list_sum_eq_zero_iff _ hnn]
  constructor
  · intro h e he
    have h1 := h |e - stop_loss| (List.mem_map.mpr ⟨e, he, rfl⟩)
    have h2 : e - stop_loss = 0 := abs_eq_zero.mp h1
    linarith
  · intro h x hx
    simp only [List.mem_map] at hx
    obtain ⟨e, he, rfl⟩ := hx
    simp [h e he]

/-- C3: for every non-empty list of entries, stop loss, and positive risk
budget with at least one entry away from the stop, `compute_equal_sized_orders`
returns one size per entry, all equal to
`account_size * risk_pct / Σ |entry_i - stop_loss|`, and consequently
`Σ size_i * |entry_i - stop_loss| = account_size * risk_pct` exactly. -/
theorem compute_equal_sized_orders_exact
    (entries : List ℚ) (stop_loss account_size risk_pct : ℚ)
    (hne : entries ≠ [])
    (hrisk : 0 < account_size * risk_pct)
    (hdiff : ∃ e ∈ entries, e ≠ stop_loss) :
    compute_equal_sized_orders entries stop_loss account_size risk_pct =
      .ok (entries.map (fun _ =>
        account_size * risk_pct / (entries.map (fun e => |e - stop_loss|)).sum)) ∧
    (entries.map (fun e =>
        account_size * risk_pct / (entries.map (fun e2 => |e2 - stop_loss|)).sum
          * |e - stop_loss|)).sum = account_size * risk_pct := by
  set denom := (entries.map (fun e => |e - stop_loss|)).sum with hdenom
  have hdpos : denom ≠ 0 := by
    intro h0
    obtain ⟨e, he, hene⟩ := hdiff
    have := (sizing_denom_eq_zero_iff entries stop_loss).mp (hdenom ▸ h0) e he
    exact hene this
  constructor
  · unfold compute_equal_sized_orders
    rw [if_neg hne, if_neg (by linarith), if_neg hdpos]
  · have hsum : (entries.map (fun e =>
        account_size * risk_pct / denom * |e - stop_loss|)).sum
          = account_size * risk_pct / denom * denom := by
      rw [hdenom, ← List.sum_map_mul_left]
    rw [hsum, div_mul_cancel₀ _ hdpos]

/-- Witness for C3 at a concrete input. -/
theorem compute_equal_sized_orders_exact_witness :
    compute_equal_sized_orders [(10 : ℚ), 20] 5 1000 (1/100) =
      .ok ([(10 : ℚ), 20].map (fun _ =>
        1000 * (1/100) / (([(10 : ℚ), 20]).map (fun e => |e - 5|)).sum)) ∧
    ([(10 : ℚ), 20].map (fun e =>
        1000 * (1/100) / (([(10 : ℚ), 20]).map (fun e2 => |e2 - 5|)).sum
          * |e - 5|)).sum = 1000 * (1/100) :=
  compute_equal_sized_orders_exact [10, 20] 5 1000 (1/100)
    (by decide) (by norm_num) ⟨10, by simp, by norm_num⟩

lemma le_foldl_max (t : List ℚ) (a : ℚ) :
    a ≤ t.foldl max a ∧ ∀ x ∈ t, x ≤ t.foldl max a := by
  induction t generalizing a with
  | nil => simp
  | cons b u ih =>
    obtain ⟨h1, h2⟩ := ih (max a b)
    refine ⟨le_trans (le_max_left a b) h1, ?_⟩
    intro x hx
    rcases List.mem_cons.mp hx with rfl | hxu
    · exact le_trans (le_max_right a x) h1
    · exact h2 x hxu

lemma foldl_max_mem (t : List ℚ) (a : ℚ) :
    t.foldl max a = a ∨ t.foldl max a ∈ t := by
  induction t generalizing a with
  | nil => simp
  | cons b u ih =>
    rcases ih (max a b) with h | h
    · rcases max_choice a b with hab | hab
      · left; simpa [hab] using h
      · right; simp only [List.foldl_cons]
        rw [h, hab]; exact List.mem_cons_self _ _
    · right; exact List.mem_cons_of_mem _ h

lemma pyMax_spec (l : List ℚ) (m : ℚ) (h : pyMax l = some m) :
    m ∈ l ∧ ∀ x ∈ l, x ≤ m := by
  match l with
  | [] => simp [pyMax] at h
  | a :: t =>
    simp only [pyMax, Option.some.injEq] at h
    subst h
    obtain ⟨h1, h2⟩ := le_foldl_max t a
    refine ⟨?_, ?_⟩
    · rcases foldl_max_mem t a with he | he
      · rw [he]; exact List.mem_cons_self _ _
      · exact List.mem_cons_of_mem _ he
    · intro x hx
      rcases List.mem_cons.mp hx with rfl | hxt
      · exact h1
      · exact h2 x hxt

lemma ge_foldl_min (t : List ℚ) (a : ℚ) :
    t.foldl min a ≤ a ∧ ∀ x ∈ t, t.foldl min a ≤ x := by
  induction t generalizing a with
  | nil => simp
  | cons b u ih =>
    obtain ⟨h1, h2⟩ := ih (min a b)
    refine ⟨le_trans h1 (min_le_left a b), ?_⟩
    intro x hx
    rcases List.mem_cons.mp hx with rfl | hxu
    · exact le_trans h1 (min_le_right a x)
    · exact h2 x hxu

lemma foldl_min_mem (t : List ℚ) (a : ℚ) :
    t.foldl min a = a ∨ t.foldl min a ∈ t := by
  induction t generalizing a with
  | nil => simp
  | cons b u ih =>
    rcases ih (min a b) with h | h
    · rcases min_choice a b with hab | hab
      · left; simpa [hab] using h
      · right; simp only [List.foldl_cons]
        rw [h, hab]; exact List.mem_cons_self _ _
    · right; exact List.mem_cons_of_mem _ h

lemma pyMin_spec (l : List ℚ) (m : ℚ) (h : pyMin l = some m) :
    m ∈ l ∧ ∀ x ∈ l, m ≤ x := by
  match l with
  | [] => simp [pyMin] at h
  | a :: t =>
    simp only [pyMin, Option.some.injEq] at h
    subst h
    obtain ⟨h1, h2⟩ := ge_foldl_min t a
    refine ⟨?_, ?_⟩
    · rcases foldl_min_mem t a with he | he
      · rw [he]; exact List.mem_cons_self _ _
      · exact List.mem_cons_of_mem _ he
    · intro x hx
      rcases List.mem_cons.mp hx with rfl | hxt
      · exact h1
      · exact h2 x hxt

lemma pyMax_isSome (l : List ℚ) (h : l ≠ []) : ∃ m, pyMax l = some m := by
  match l with
  | [] => exact absurd rfl h
  | a :: t => exact ⟨t.foldl max a, rfl⟩

lemma pyMin_isSome (l : List ℚ) (h : l ≠ []) : ∃ m, pyMin l = some m := by
  match l with
  | [] => exact absurd rfl h
  | a :: t => exact ⟨t.foldl min a, rfl⟩

/-- Every element of the window `l[s : s+k]` is a `getD` at some index in
`[s, s+k) ∩ [0, l.length)`. -/
lemma mem_window_exists (l : List ℚ) (s k : ℕ) (x : ℚ)
    (hx : x ∈ (l.drop s).take k) :
    ∃ j, s ≤ j ∧ j < s + k ∧ j < l.length ∧ l.getD j 0 = x := by
  obtain ⟨m, hm, hget⟩ := List.mem_iff_getElem.mp hx
  have hmk : m < k := lt_of_lt_of_le hm (by simp [List.length_take])
  have hmd : m < (l.drop s).length := lt_of_lt_of_le hm (by simp [List.length_take])
  have hsl : s + m < l.length := by
    have := List.length_drop s l
    omega
  refine ⟨s + m, by omega, by omega, hsl, ?_⟩
  rw [List.getD_eq_getElem l 0 hsl]
  rw [List.getElem_take, List.getElem_drop] at hget
  exact hget

/-- Conversely, each in-range index contributes its entry to the window. -/
lemma getD_mem_window (l : List ℚ) (s k j : ℕ)
    (hj : s ≤ j) (hjk : j < s + k) (hjl : j < l.length) :
    l.getD j 0 ∈ (l.drop s).take k := by
  have hm : j - s < (l.drop s).length := by
    have := List.length_drop s l
    omega
  have hmk : j - s < ((l.drop s).take k).length := by
    simp only [List.length_take, List.length_drop]
    omega
  apply List.mem_iff_getElem.mpr
  refine ⟨j - s, hmk, ?_⟩
  rw [List.getElem_take, List.getElem_drop]
  rw [List.getD_eq_getElem l 0 hjl]
  congr 1
  omega

/-- The window `l[s : s+k]` is nonempty when `k > 0` and `s < l.length`. -/
lemma window_ne_nil (l : List ℚ) (s k : ℕ) (hk : 0 < k) (hs : s < l.length) :
    (l.drop s).take k ≠ [] := by
  intro h
  have := congrArg List.length h
  simp only [List.length_take, List.length_drop, List.length_nil] at this
  omega

lemma getD_map_range (f : ℕ → Bool) (n i : ℕ) (h : i < n) :
    (((List.range n).map f).getD i false) = f i := by
  rw [List.getD_eq_getElem _ _ (by simp [h])]
  simp

lemma getD_map_range_of_ge (f : ℕ → Bool) (n i : ℕ) (h : n ≤ i) :
    (((List.range n).map f).getD i false) = false := by
  apply List.getD_eq_default
  simp [h]

/-- The window condition of a pivot high at `i`, characterised without
`pyMax`: every bar of the window `[i-left, i+right]` has high at most
`high[i]`. -/
lemma pivot_window_max_iff (l : List ℚ) (left right i : ℕ)
    (hli : left ≤ i) (hin : i + right < l.length) :
    (match pyMax ((l.drop (i - left)).take (left + right + 1)) with
     | some m => decide (l.getD i 0 = m)
     | none => false) = true ↔
    (∀ j, i - left ≤ j → j ≤ i + right → l.getD j 0 ≤ l.getD i 0) := by
  have hsk : i - left + (left + right + 1) = i + right + 1 := by omega
  have hne : (l.drop (i - left)).take (left + right + 1) ≠ [] :=
    window_ne_nil l _ _ (by omega) (by omega)
  obtain ⟨m, hm⟩ := pyMax_isSome _ hne
  obtain ⟨hmem, hub⟩ := pyMax_spec _ m hm
  rw [hm]
  simp only [decide_eq_true_eq]
  constructor
  · intro heq j hj1 hj2
    have hjl : j < l.length := by omega
    have : l.getD j 0 ∈ (l.drop (i - left)).take (left + right + 1) :=
      getD_mem_window l _ _ j hj1 (by omega) hjl
    rw [heq]
    exact hub _ this
  · intro hdom
    have hiw : l.getD i 0 ∈ (l.drop (i - left)).take (left + right + 1) :=
      getD_mem_window l _ _ i (by omega) (by omega) (by omega)
    obtain ⟨j, hj1, hj2, hj3, hj4⟩ := mem_window_exists l _ _ m hmem
    have h1 : m ≤ l.getD i 0 := by
      rw [← hj4]
      exact hdom j hj1 (by omega)
    have h2 : l.getD i 0 ≤ m := hub _ hiw
    linarith

/-- Mirror of `pivot_window_max_iff` for pivot lows. -/
lemma pivot_window_min_iff (l : List ℚ) (left right i : ℕ)
    (hli : left ≤ i) (hin : i + right < l.length) :
    (match pyMin ((l.drop (i - left)).take (left + right + 1)) with
     | some m => decide (l.getD i 0 = m)
     | none => false) = true ↔
    (∀ j, i - left ≤ j → j ≤ i + right → l.getD i 0 ≤ l.getD j 0) := by
  have hne : (l.drop (i - left)).take (left + right + 1) ≠ [] :=
    window_ne_nil l _ _ (by omega) (by omega)
  obtain ⟨m, hm⟩ := pyMin_isSome _ hne
  obtain ⟨hmem, hlb⟩ := pyMin_spec _ m hm
  rw [hm]
  simp only [decide_eq_true_eq]
  constructor
  · intro heq j hj1 hj2
    have hjl : j < l.length := by omega
    have : l.getD j 0 ∈ (l.drop (i - left)).take (left + right + 1) :=
      getD_mem_window l _ _ j hj1 (by omega) hjl
    rw [heq]
    exact hlb _ this
  · intro hdom
    have hiw : l.getD i 0 ∈ (l.drop (i - left)).take (left + right + 1) :=
      getD_mem_window l _ _ i (by omega) (by omega) (by omega)
    obtain ⟨j, hj1, hj2, hj3, hj4⟩ := mem_window_exists l _ _ m hmem
    have h1 : l.getD i 0 ≤ m := by
      rw [← hj4]
      exact hdom j hj1 (by omega)
    have h2 : m ≤ l.getD i 0 := hlb _ hiw
    linarith

/-- C7: pivot detection marks bar `i` as a pivot high iff
`left ≤ i ≤ n - right - 1` and `high[i]` is a (tie-allowed) maximum of the
window `[i-left, i+right]`, and as a pivot low iff `low[i]` is a minimum of
that window; bars within `left` of the start or `right` of the end are
never pivots (the bounds are part of each iff); the empty series yields an
empty result; the output is a pure function of the inputs by construction. -/
theorem detect_pivots_spec (df : List Candle) (left right i : ℕ) :
    ((detect_pivots df left right).1.getD i false = true ↔
      left ≤ i ∧ i + right < df.length ∧
        ∀ j, i - left ≤ j → j ≤ i + right →
          (df.map Candle.high).getD j 0 ≤ (df.map Candle.high).getD i 0) ∧
    ((detect_pivots df left right).2.getD i false = true ↔
      left ≤ i ∧ i + right < df.length ∧
        ∀ j, i - left ≤ j → j ≤ i + right →
          (df.map Candle.low).getD i 0 ≤ (df.map Candle.low).getD j 0) ∧
    detect_pivots [] left right = ([], []) := by
  refine ⟨?_, ?_, by simp [detect_pivots]⟩
  · by_cases hn : df.length = 0
    · simp only [detect_pivots, hn, if_pos rfl]
      constructor
      · intro h; simp at h
      · rintro ⟨h1, h2, h3⟩; omega
    · simp only [detect_pivots, if_neg hn]
      by_cases hi : i < df.length
      · rw [getD_map_range _ _ _ hi]
        simp only [Bool.and_eq_true, decide_eq_true_eq]
        constructor
        · rintro ⟨⟨h1, h2⟩, h3⟩
          have hlen : (df.map Candle.high).length = df.length := by simp
          refine ⟨h1, h2, ?_⟩
          exact (pivot_window_max_iff (df.map Candle.high) left right i h1
            (by rw [hlen]; exact h2)).mp h3
        · rintro ⟨h1, h2, h3⟩
          have hlen : (df.map Candle.high).length = df.length := by simp
          exact ⟨⟨h1, h2⟩, (pivot_window_max_iff (df.map Candle.high) left right i h1
            (by rw [hlen]; exact h2)).mpr h3⟩
      · rw [getD_map_range_of_ge _ _ _ (by omega)]
        constructor
        · intro h; simp at h
        · rintro ⟨h1, h2, h3⟩; omega
  · by_cases hn : df.length = 0
    · simp only [detect_pivots, hn, if_pos rfl]
      constructor
      · intro h; simp at h
      · rintro ⟨h1, h2, h3⟩; omega
    · simp only [detect_pivots, if_neg hn]
      by_cases hi : i < df.length
      · rw [getD_map_range _ _ _ hi]
        simp only [Bool.and_eq_true, decide_eq_true_eq]
        constructor
        · rintro ⟨⟨h1, h2⟩, h3⟩
          have hlen : (df.map Candle.low).length = df.length := by simp
          refine ⟨h1, h2, ?_⟩
          exact (pivot_window_min_iff (df.map Candle.low) left right i h1
            (by rw [hlen]; exact h2)).mp h3
        · rintro ⟨h1, h2, h3⟩
          have hlen : (df.map Candle.low).length = df.length := by simp
          exact ⟨⟨h1, h2⟩, (pivot_window_min_iff (df.map Candle.low) left right i h1
            (by rw [hlen]; exact h2)).mpr h3⟩
      · rw [getD_map_range_of_ge _ _ _ (by omega)]
        constructor
        · intro h; simp at h
        · rintro ⟨h1, h2, h3⟩; omega

lemma select_bos_step_no_bos (closes : List ℚ) (acc : Option (ℕ × ℕ)) (q : ℕ)
    (h : bos_for_pivot closes q = none) :
    select_bos_step closes acc q = acc := by
  simp [select_bos_step, h]

lemma select_bos_step_bos_none (closes : List ℚ) (q b' : ℕ)
    (h : bos_for_pivot closes q = some b') :
    select_bos_step closes none q = some (q, b') := by
  simp [select_bos_step, h]

lemma select_bos_step_bos_some (closes : List ℚ) (q b' p0 b0 : ℕ)
    (h : bos_for_pivot closes q = some b') :
    select_bos_step closes (some (p0, b0)) q =
      if b0 < b' then some (q, b') else some (p0, b0) := by
  simp [select_bos_step, h]

/-- Any pair produced by the selection fold is either the initial
accumulator or a swing from the list paired with its BOS bar. -/
lemma select_fold_sound (closes : List ℚ) :
    ∀ (l : List ℕ) (acc : Option (ℕ × ℕ)) (p b : ℕ),
      l.foldl (select_bos_step closes) acc = some (p, b) →
      acc = some (p, b) ∨ (p ∈ l ∧ bos_for_pivot closes p = some b) := by
  intro l
  induction l with
  | nil => intro acc p b h; simp only [List.foldl_nil] at h; exact Or.inl h
  | cons q t ih =>
    intro acc p b h
    simp only [List.foldl_cons] at h
    rcases ih (select_bos_step closes acc q) p b h with hstep | hmem
    · cases hb : bos_for_pivot closes q with
      | none =>
        rw [select_bos_step_no_bos closes acc q hb] at hstep
        exact Or.inl hstep
      | some b' =>
        cases hacc : acc with
        | none =>
          rw [hacc, select_bos_step_bos_none closes q b' hb] at hstep
          simp only [Option.some.injEq, Prod.mk.injEq] at hstep
          obtain ⟨rfl, rfl⟩ := hstep
          exact Or.inr ⟨List.mem_cons_self _ _, hb⟩
        | some pb =>
          obtain ⟨p0, b0⟩ := pb
          rw [hacc, select_bos_step_bos_some closes q b' p0 b0 hb] at hstep
          by_cases hlt : b0 < b'
          · rw [if_pos hlt] at hstep
            simp only [Option.some.injEq, Prod.mk.injEq] at hstep
            obtain ⟨rfl, rfl⟩ := hstep
            exact Or.inr ⟨List.mem_cons_self _ _, hb⟩
          · rw [if_neg hlt] at hstep
            exact Or.inl (hacc ▸ hstep)
    · exact Or.inr ⟨List.mem_cons_of_mem _ hmem.1, hmem.2⟩

/-- The pair produced by the selection fold carries the largest BOS bar
among the initial accumulator and all swings of the list that have one. -/
lemma select_fold_max (closes : List ℚ) :
    ∀ (l : List ℕ) (acc : Option (ℕ × ℕ)) (p b : ℕ),
      l.foldl (select_bos_step closes) acc = some (p, b) →
      (∀ q ∈ l, ∀ b', bos_for_pivot closes q = some b' → b' ≤ b) ∧
      (∀ p0 b0, acc = some (p0, b0) → b0 ≤ b) := by
  intro l
  induction l with
  | nil =>
    intro acc p b h
    simp only [List.foldl_nil] at h
    refine ⟨by simp, ?_⟩
    intro p0 b0 hacc
    rw [h] at hacc
    simp only [Option.some.injEq, Prod.mk.injEq] at hacc
    omega
  | cons q t ih =>
    intro acc p b h
    simp only [List.foldl_cons] at h
    obtain ⟨iht, ihacc⟩ := ih (select_bos_step closes acc q) p b h
    have hstep_le : ∀ x y, select_bos_step closes acc q = some (x, y) → y ≤ b :=
      fun x y hxy => ihacc x y hxy
    constructor
    · intro r hr b' hb'
      rcases List.mem_cons.mp hr with rfl | hrt
      · cases hacc : acc with
        | none =>
          exact hstep_le r b' (by rw [hacc, select_bos_step_bos_none closes r b' hb'])
        | some pb =>
          obtain ⟨p0, b0⟩ := pb
          by_cases hlt : b0 < b'
          · exact hstep_le r b' (by
              rw [hacc, select_bos_step_bos_some closes r b' p0 b0 hb', if_pos hlt])
          · have hb0 : b0 ≤ b := hstep_le p0 b0 (by
              rw [hacc, select_bos_step_bos_some closes r b' p0 b0 hb', if_neg hlt])
            omega
      · exact iht r hrt b' hb'
    · intro p0 b0 hacc
      cases hb : bos_for_pivot closes q with
      | none =>
        exact hstep_le p0 b0 (by rw [hacc, select_bos_step_no_bos closes _ q hb])
      | some b' =>
        by_cases hlt : b0 < b'
        · have := hstep_le q b' (by
            rw [hacc, select_bos_step_bos_some closes q b' p0 b0 hb, if_pos hlt])
          omega
        · exact hstep_le p0 b0 (by
            rw [hacc, select_bos_step_bos_some closes q b' p0 b0 hb, if_neg hlt])

lemma getLast?_filter_range (pred : ℕ → Bool) (n b : ℕ)
    (h : ((List.range n).filter pred).getLast? = some b) :
    b < n ∧ pred b = true ∧ ∀ j < n, pred j = true → j ≤ b := by
  obtain ⟨ys, hys⟩ := List.getLast?_eq_some_iff.mp h
  have hbmem : b ∈ (List.range n).filter pred := by
    rw [hys]; exact List.mem_append.mpr (Or.inr (by simp))
  have hb1 := List.mem_filter.mp hbmem
  refine ⟨List.mem_range.mp hb1.1, hb1.2, ?_⟩
  intro j hj hpj
  have hjmem : j ∈ (List.range n).filter pred :=
    List.mem_filter.mpr ⟨List.mem_range.mpr hj, hpj⟩
  have hsorted : ((List.range n).filter pred).Pairwise (· < ·) :=
    (List.pairwise_lt_range n).filter pred
  rw [hys] at hjmem hsorted
  rcases List.mem_append.mp hjmem with hjy | hjb
  · have := (List.pairwise_append.mp hsorted).2.2 j hjy b (by simp)
    omega
  · simp only [List.mem_singleton] at hjb
    omega

/-- `bos_for_pivot` returns the LAST upward crossing of the pivot's level:
the returned bar satisfies `closes[b-1] ≤ level < closes[b]` and no later
bar does. -/
lemma bos_for_pivot_spec (closes : List ℚ) (pivot b : ℕ)
    (h : bos_for_pivot closes pivot = some b) :
    b < closes.length ∧ pivot + 1 ≤ b ∧
      closes.getD (b - 1) 0 ≤ closes.getD pivot 0 ∧
      closes.getD pivot 0 < closes.getD b 0 ∧
      (∀ j < closes.length, pivot + 1 ≤ j →
        closes.getD (j - 1) 0 ≤ closes.getD pivot 0 →
        closes.getD pivot 0 < closes.getD j 0 → j ≤ b) := by
  unfold bos_for_pivot at h
  obtain ⟨hbn, hpred, hmax⟩ := getLast?_filter_range _ _ _ h
  simp only [Bool.and_eq_true, decide_eq_true_eq] at hpred
  refine ⟨hbn, hpred.1.1, hpred.1.2, hpred.2, ?_⟩
  intro j hj h1 h2 h3
  refine hmax j hj ?_
  simp only [Bool.and_eq_true, decide_eq_true_eq]
  exact ⟨⟨h1, h2⟩, h3⟩

/-- C1 (amended): when the rolling close-based detector returns an
active structure `(lvl, p, b)`, `p` is a swing-high candidate, `lvl` is its close,
`b` is the LAST bar after the swing at which the close crosses up through
`lvl` (`closes[b-1] ≤ lvl < closes[b]`, with no later crossing) — not the
first bar whose close exceeds `lvl` — and `b` is maximal among the BOS
bars of all swing-high candidates. -/
theorem compute_ms_and_bos_active
    (df : List Candle) (left right : ℕ) (lvl : ℚ) (p b : ℕ)
    (_hleft : 1 ≤ left) (_hright : 1 ≤ right)
    (h : compute_ms_and_bos df left right = some (lvl, p, b)) :
    p ∈ swing_high_positions (df.map Candle.close) left right ∧
    lvl = (df.map Candle.close).getD p 0 ∧
    bos_for_pivot (df.map Candle.close) p = some b ∧
    (b < df.length ∧ p + 1 ≤ b ∧
      (df.map Candle.close).getD (b - 1) 0 ≤ lvl ∧
      lvl < (df.map Candle.close).getD b 0 ∧
      (∀ j < df.length, p + 1 ≤ j →
        (df.map Candle.close).getD (j - 1) 0 ≤ lvl →
        lvl < (df.map Candle.close).getD j 0 → j ≤ b)) ∧
    (∀ q ∈ swing_high_positions (df.map Candle.close) left right,
      ∀ b', bos_for_pivot (df.map Candle.close) q = some b' → b' ≤ b) := by
  simp only [compute_ms_and_bos] at h
  by_cases hn : df.length < left + right + 1
  · rw [if_pos hn] at h; exact absurd h (by simp)
  · rw [if_neg hn] at h
    cases hsel : select_last_bos (df.map Candle.close)
        (swing_high_positions (df.map Candle.close) left right) with
    | none => exact absurd (hsel ▸ h) (by simp)
    | some pb =>
      obtain ⟨p', b'⟩ := pb
      simp only [hsel, Option.some.injEq, Prod.mk.injEq] at h
      obtain ⟨hlvl, hp, hb⟩ := h
      subst hp; subst hb; subst hlvl
      rcases select_fold_sound (df.map Candle.close) _ none p' b' hsel with habs | hmem
      · exact absurd habs (by simp)
      · obtain ⟨hmem1, hmem2⟩ := hmem
        obtain ⟨hmax, _⟩ := select_fold_max (df.map Candle.close) _ none p' b' hsel
        obtain ⟨c1, c2, c3, c4, c5⟩ :=
          bos_for_pivot_spec (df.map Candle.close) p' b' hmem2
        have hlen : (df.map Candle.close).length = df.length := by simp
        refine ⟨hmem1, rfl, hmem2, ⟨by omega, c2, c3, c4, ?_⟩, hmax⟩
        intro j hj h1 h2 h3
        exact c5 j (by omega) h1 h2 h3

/-- C1 counterexample: on closes `[1, 5, 1, 6, 1, 6]` with
`left = right = 1` the detector selects the swing at bar 1 (close 5) with
BOS bar 5 — the LAST upward crossing of level 5 — whereas the first bar
after the swing whose close exceeds 5 is bar 3.  So the claim's "first
bar after the swing whose close exceeds the swing's close" is false of
the code. -/
theorem compute_ms_and_bos_counterexample :
    compute_ms_and_bos
        (([1, 5, 1, 6, 1, 6] : List ℚ).map
          (fun c => { ts := 0, opn := c, high := c, low := c, close := c,
                      vol := 0 : Candle })) 1 1 = some (5, 1, 5) ∧
    spec_first_bos_after
        ((([1, 5, 1, 6, 1, 6] : List ℚ).map
          (fun c => { ts := 0, opn := c, high := c, low := c, close := c,
                      vol := 0 : Candle })).map Candle.close) 1 = some 3 ∧
    (5 : ℕ) ≠ 3 := by
  refine ⟨by decide, by decide, by decide⟩

/-- Witness for C1's amended theorem at the concrete series of the
counterexample. -/
theorem compute_ms_and_bos_active_witness :
    1 ∈ swing_high_positions
        ((([1, 5, 1, 6, 1, 6] : List ℚ).map
          (fun c => { ts := 0, opn := c, high := c, low := c, close := c,
                      vol := 0 : Candle })).map Candle.close) 1 1 ∧
    ∀ q ∈ swing_high_positions
        ((([1, 5, 1, 6, 1, 6] : List ℚ).map
          (fun c => { ts := 0, opn := c, high := c, low := c, close := c,
                      vol := 0 : Candle })).map Candle.close) 1 1,
      ∀ b', bos_for_pivot
        ((([1, 5, 1, 6, 1, 6] : List ℚ).map
          (fun c => { ts := 0, opn := c, high := c, low := c, close := c,
                      vol := 0 : Candle })).map Candle.close) q = some b' →
        b' ≤ 5 := by
  have h := compute_ms_and_bos_active
    (([1, 5, 1, 6, 1, 6] : List ℚ).map
      (fun c => { ts := 0, opn := c, high := c, low := c, close := c,
                  vol := 0 : Candle })) 1 1 5 1 5
    (by decide) (by decide) (by decide)
  exact ⟨h.1, h.2.2.2.2⟩

/-- C6: with at least 51 bars, all four SMA values are defined (so the
claim's NaN clause is vacuously satisfied) and the SMA strategy fires
exactly when the fast average crosses from `≤` the slow average on the
previous bar to `>` on the current bar; the emitted signal is a long
`market_entry` at the current close with `stop_loss = 0.97 * entry` and
`take_profit = 1.03 * entry`.  With fewer than 51 bars it returns no
signal. -/
theorem sma_generate_signal_spec (df : List Candle) (cfg : Config) :
    (df.length < 51 → sma_generate_signal df cfg = none) ∧
    (51 ≤ df.length →
      ∃ fast_now slow_now fast_prev slow_prev,
        rolling_mean (df.map Candle.close) 10 (df.length - 1) = some fast_now ∧
        rolling_mean (df.map Candle.close) 50 (df.length - 1) = some slow_now ∧
        rolling_mean (df.map Candle.close) 10 (df.length - 1 - 1) = some fast_prev ∧
        rolling_mean (df.map Candle.close) 50 (df.length - 1 - 1) = some slow_prev ∧
        ((sma_generate_signal df cfg).isSome ↔
          (fast_now > slow_now ∧ fast_prev ≤ slow_prev)) ∧
        (∀ s, sma_generate_signal df cfg = some s →
          s.strategy = "sma" ∧ s.signal_type = "market_entry" ∧
          s.direction = "long" ∧
          s.entries = [(df.map Candle.close).getD (df.length - 1) 0] ∧
          s.stop_loss = (df.map Candle.close).getD (df.length - 1) 0 * (97/100) ∧
          s.take_profit = (df.map Candle.close).getD (df.length - 1) 0 * (103/100))) := by
  constructor
  · intro h
    simp only [sma_generate_signal, if_pos h]
  · intro h51
    have e1 : rolling_mean (df.map Candle.close) 10 (df.length - 1) =
        some ((((df.map Candle.close).drop (df.length - 1 + 1 - 10)).take 10).sum / (10 : ℚ)) := by
      unfold rolling_mean
      rw [if_pos (by omega)]
      norm_num
    have e2 : rolling_mean (df.map Candle.close) 50 (df.length - 1) =
        some ((((df.map Candle.close).drop (df.length - 1 + 1 - 50)).take 50).sum / (50 : ℚ)) := by
      unfold rolling_mean
      rw [if_pos (by omega)]
      norm_num
    have e3 : rolling_mean (df.map Candle.close) 10 (df.length - 1 - 1) =
        some ((((df.map Candle.close).drop (df.length - 1 - 1 + 1 - 10)).take 10).sum / (10 : ℚ)) := by
      unfold rolling_mean
      rw [if_pos (by omega)]
      norm_num
    have e4 : rolling_mean (df.map Candle.close) 50 (df.length - 1 - 1) =
        some ((((df.map Candle.close).drop (df.length - 1 - 1 + 1 - 50)).take 50).sum / (50 : ℚ)) := by
      unfold rolling_mean
      rw [if_pos (by omega)]
      norm_num
    refine ⟨_, _, _, _, e1, e2, e3, e4, ?_⟩
    have hred : sma_generate_signal df cfg =
        if ((((df.map Candle.close).drop (df.length - 1 + 1 - 10)).take 10).sum / (10 : ℚ) >
              (((df.map Candle.close).drop (df.length - 1 + 1 - 50)).take 50).sum / (50 : ℚ) ∧
            (((df.map Candle.close).drop (df.length - 1 - 1 + 1 - 10)).take 10).sum / (10 : ℚ) ≤
              (((df.map Candle.close).drop (df.length - 1 - 1 + 1 - 50)).take 50).sum / (50 : ℚ))
        then some { strategy := "sma", signal_type := "market_entry",
                    direction := "long",
                    entries := [(df.map Candle.close).getD (df.length - 1) 0],
                    stop_loss := (df.map Candle.close).getD (df.length - 1) 0 * (97/100),
                    take_profit := (df.map Candle.close).getD (df.length - 1) 0 * (103/100),
                    meta := .smaMeta
                      ((((df.map Candle.close).drop (df.length - 1 + 1 - 10)).take 10).sum / (10 : ℚ))
                      ((((df.map Candle.close).drop (df.length - 1 + 1 - 50)).take 50).sum / (50 : ℚ)) }
        else none := by
      simp only [sma_generate_signal, if_neg (by omega : ¬ df.length < 51), e1, e2, e3, e4]
    constructor
    · rw [hred]
      by_cases hc : ((((df.map Candle.close).drop (df.length - 1 + 1 - 10)).take 10).sum / (10 : ℚ) >
              (((df.map Candle.close).drop (df.length - 1 + 1 - 50)).take 50).sum / (50 : ℚ) ∧
            (((df.map Candle.close).drop (df.length - 1 - 1 + 1 - 10)).take 10).sum / (10 : ℚ) ≤
              (((df.map Candle.close).drop (df.length - 1 - 1 + 1 - 50)).take 50).sum / (50 : ℚ))
      · rw [if_pos hc]; simpa using hc
      · rw [if_neg hc]; simpa using hc
    · intro s hs
      rw [hred] at hs
      by_cases hc : ((((df.map Candle.close).drop (df.length - 1 + 1 - 10)).take 10).sum / (10 : ℚ) >
              (((df.map Candle.close).drop (df.length - 1 + 1 - 50)).take 50).sum / (50 : ℚ) ∧
            (((df.map Candle.close).drop (df.length - 1 - 1 + 1 - 10)).take 10).sum / (10 : ℚ) ≤
              (((df.map Candle.close).drop (df.length - 1 - 1 + 1 - 50)).take 50).sum / (50 : ℚ))
      · rw [if_pos hc] at hs
        injection hs with hinj
        subst hinj
        exact ⟨rfl, rfl, rfl, rfl, rfl, rfl⟩
      · rw [if_neg hc] at hs
        exact absurd hs (by simp)

/-- Inversion: everything that must have held, and the exact signal
produced, when `_onepad_generate_signal` emits. -/
lemma onepad_generate_signal_inv (df : List Candle) (cfg : Config)
    (s : Signal) (h : onepad_generate_signal df cfg = some s) :
    ∃ structure_level sp bos_pos ph_pos pl_pos z,
      55 ≤ df.length ∧
      compute_ms_and_bos df 4 4 = some (structure_level, sp, bos_pos) ∧
      bos_pos < df.length - 1 ∧
      ((List.range df.length).filter fun j =>
        (detect_pivots df 1 1).1.getD j false && decide (bos_pos < j) &&
          decide (j < df.length - 1)).getLast? = some ph_pos ∧
      ((List.range df.length).filter fun j =>
        (detect_pivots df 1 1).2.getD j false &&
          decide (j < bos_pos)).getLast? = some pl_pos ∧
      (df.map Candle.low).getD pl_pos 0 < (df.map Candle.high).getD ph_pos 0 ∧
      onepad_zone_of_swing ((df.map Candle.low).getD pl_pos 0)
        ((df.map Candle.high).getD ph_pos 0) = some z ∧
      1 ≤ cfg.num_limit_orders.getD 4 ∧
      s = { strategy := "1pad", signal_type := "limit_bundle",
            direction := "long",
            entries :=
              if cfg.num_limit_orders.getD 4 = 1 then [z.fib_0618]
              else (List.range (cfg.num_limit_orders.getD 4).toNat).map
                (fun (i : ℕ) => z.net_top - (z.net_top - z.net_bottom) /
                  ((cfg.num_limit_orders.getD 4 - 1 : ℤ) : ℚ) * (i : ℚ)),
            stop_loss := z.fib_1, take_profit := z.fib_0236,
            meta := .onepadMeta {
              bos_index := bos_pos, pivot_high_index := ph_pos,
              pivot_low_index := pl_pos, structure_level := structure_level,
              fib_0 := z.fib_0, fib_0236 := z.fib_0236,
              fib_0618 := z.fib_0618, fib_1 := z.fib_1,
              net_size_pct := z.net_size_pct,
              net_top := z.net_top, net_bottom := z.net_bottom,
              net_center := z.fib_0618 } } := by
  simp only [onepad_generate_signal] at h
  by_cases h55 : df.length < 55
  · rw [if_pos h55] at h; exact absurd h (by simp)
  · rw [if_neg h55] at h
    cases hms : compute_ms_and_bos df 4 4 with
    | none => rw [hms] at h; exact absurd h (by simp)
    | some trip =>
      obtain ⟨structure_level, sp, bos_pos⟩ := trip
      rw [hms] at h
      dsimp only at h
      by_cases hbos : df.length - 1 ≤ bos_pos
      · rw [if_pos hbos] at h; exact absurd h (by simp)
      · rw [if_neg hbos] at h
        cases hph : ((List.range df.length).filter fun j =>
            (detect_pivots df 1 1).1.getD j false && decide (bos_pos < j) &&
              decide (j < df.length - 1)).getLast? with
        | none => rw [hph] at h; exact absurd h (by simp)
        | some ph_pos =>
          rw [hph] at h
          dsimp only at h
          cases hpl : ((List.range df.length).filter fun j =>
              (detect_pivots df 1 1).2.getD j false &&
                decide (j < bos_pos)).getLast? with
          | none => rw [hpl] at h; exact absurd h (by simp)
          | some pl_pos =>
            rw [hpl] at h
            dsimp only at h
            by_cases hsw : (df.map Candle.high).getD ph_pos 0 ≤
                (df.map Candle.low).getD pl_pos 0
            · rw [if_pos hsw] at h; exact absurd h (by simp)
            · rw [if_neg hsw] at h
              cases hz : onepad_zone_of_swing
                  ((df.map Candle.low).getD pl_pos 0)
                  ((df.map Candle.high).getD ph_pos 0) with
              | none => rw [hz] at h; exact absurd h (by simp)
              | some z =>
                rw [hz] at h
                dsimp only at h
                by_cases hnum : cfg.num_limit_orders.getD 4 ≤ 0
                · rw [if_pos hnum] at h; exact absurd h (by simp)
                · rw [if_neg hnum] at h
                  refine ⟨structure_level, sp, bos_pos, ph_pos, pl_pos, z,
                    by omega, rfl, by omega, hph, hpl, by linarith, hz,
                    by omega, ?_⟩
                  injection h with hinj
                  exact hinj.symm

/-- The zone builder's output, characterised: `fib_0` is the swing high,
`fib_1` the swing low, the zone is never degenerate, and (for a genuine
swing) both edges are clamped into the swing range. -/
lemma onepad_zone_bounds (lo hi : ℚ) (z : ZoneData)
    (h : onepad_zone_of_swing lo hi = some z) :
    z.fib_0 = hi ∧ z.fib_1 = lo ∧ z.net_bottom < z.net_top ∧
    (lo < hi → lo ≤ z.net_bottom ∧ z.net_top ≤ hi) := by
  have hfib : ∀ lvl : ℚ, compute_fib_level lo hi "long" lvl =
      hi - (hi - lo) * lvl := by
    intro lvl
    unfold compute_fib_level
    rw [if_pos rfl]
  simp only [onepad_zone_of_swing, hfib] at h
  by_cases h0 : hi - (hi - lo) * 1 = 0
  · rw [if_pos h0] at h; exact absurd h (by simp)
  · rw [if_neg h0] at h
    set bot := max ((hi - (hi - lo) * (618/1000)) *
        (1 - |(hi - (hi - lo) * (236/1000) - (hi - (hi - lo) * 1)) /
          (hi - (hi - lo) * 1)| * 100 * (375/1000) / 2 / 100))
      (min (hi - (hi - lo) * 0) (hi - (hi - lo) * 1)) with hbot
    set top := min ((hi - (hi - lo) * (618/1000)) *
        (1 + |(hi - (hi - lo) * (236/1000) - (hi - (hi - lo) * 1)) /
          (hi - (hi - lo) * 1)| * 100 * (375/1000) / 2 / 100))
      (max (hi - (hi - lo) * 0) (hi - (hi - lo) * 1)) with htop
    by_cases hdeg : bot ≥ top
    · rw [if_pos hdeg] at h; exact absurd h (by simp)
    · rw [if_neg hdeg] at h
      simp only [Option.some.injEq] at h
      subst h
      refine ⟨by ring, by ring, by simpa using not_le.mp hdeg, ?_⟩
      intro hlt
      constructor
      · have h1 : min (hi - (hi - lo) * 0) (hi - (hi - lo) * 1) = lo := by
          rw [min_eq_right (by nlinarith)]
          ring
        calc lo = min (hi - (hi - lo) * 0) (hi - (hi - lo) * 1) := h1.symm
          _ ≤ bot := by rw [hbot]; exact le_max_right _ _
      · have h1 : max (hi - (hi - lo) * 0) (hi - (hi - lo) * 1) = hi := by
          rw [max_eq_left (by nlinarith)]
          ring
        calc top ≤ max (hi - (hi - lo) * 0) (hi - (hi - lo) * 1) := by
              rw [htop]; exact min_le_right _ _
          _ = hi := h1

lemma head?_map_range (f : ℕ → ℚ) (n : ℕ) (hn : 0 < n) :
    ((List.range n).map f).head? = some (f 0) := by
  obtain ⟨k, rfl⟩ : ∃ k, n = k + 1 := ⟨n - 1, by omega⟩
  rw [List.range_succ_eq_map]
  simp

lemma getLast?_map_range (f : ℕ → ℚ) (n : ℕ) (hn : 0 < n) :
    ((List.range n).map f).getLast? = some (f (n - 1)) := by
  rw [List.getLast?_eq_getElem?]
  simp only [List.length_map, List.length_range, List.getElem?_map]
  rw [List.getElem?_range (by omega)]
  rfl

/-- C5: whenever the zone builder accepts a genuine swing
(`swing_low < swing_high`), its net zone satisfies
`swing_low ≤ zone_bottom < zone_top ≤ swing_high`; a zone that is
degenerate after clamping is never returned (the builder yields `none`
there, and being a total function it returns rather than raising); and any
emitted 1pad signal carries a zone with
`swing_low = fib_1 ≤ net_bottom < net_top ≤ fib_0 = swing_high`. -/
theorem onepad_zone_within_swing :
    (∀ lo hi z, lo < hi → onepad_zone_of_swing lo hi = some z →
      lo ≤ z.net_bottom ∧ z.net_bottom < z.net_top ∧ z.net_top ≤ hi) ∧
    (∀ lo hi z, onepad_zone_of_swing lo hi = some z →
      z.net_bottom < z.net_top) ∧
    (∀ df cfg s, onepad_generate_signal df cfg = some s →
      ∃ m, s.meta = SignalMeta.onepadMeta m ∧
        m.fib_1 ≤ m.net_bottom ∧ m.net_bottom < m.net_top ∧
        m.net_top ≤ m.fib_0) := by
  refine ⟨?_, ?_, ?_⟩
  · intro lo hi z hlt hz
    obtain ⟨_, _, hdeg, hbounds⟩ := onepad_zone_bounds lo hi z hz
    obtain ⟨h1, h2⟩ := hbounds hlt
    exact ⟨h1, hdeg, h2⟩
  · intro lo hi z hz
    exact (onepad_zone_bounds lo hi z hz).2.2.1
  · intro df cfg s h
    obtain ⟨lvl, sp, bos, ph, pl, z, h55, hms, hbos, hph, hpl, hsw, hz, hN, rfl⟩ :=
      onepad_generate_signal_inv df cfg s h
    obtain ⟨hf0, hf1, hdeg, hbounds⟩ := onepad_zone_bounds _ _ z hz
    obtain ⟨h1, h2⟩ := hbounds hsw
    exact ⟨_, rfl, by rw [hf1]; exact h1, hdeg, by rw [hf0]; exact h2⟩

/-- C4 (amended): every signal the 1pad strategy emits is a long
`limit_bundle` with `stop_loss` the ratio-1.0 (swing-low-side) fib level
and `take_profit` the 0.236 fib level, whose entries are
`num_limit_orders` prices; for `N ≥ 2` they are equally spaced from
`zone_top` down to `zone_bottom` inclusive, while for `N = 1` the single
entry is the zone center (the 0.618 fib level), not an endpoint of the
zone.  Emission is prerequisite-driven: whenever structure/BOS, the
pivots, the swing, the zone and `N ≥ 1` are as required, a signal is
emitted — no hypothesis relates the evaluation bar's range to the zone. -/
theorem onepad_signal_bundle_shape :
    (∀ df cfg s, onepad_generate_signal df cfg = some s →
      ∃ m, s.meta = SignalMeta.onepadMeta m ∧
        s.strategy = "1pad" ∧ s.signal_type = "limit_bundle" ∧
        s.direction = "long" ∧
        s.stop_loss = m.fib_1 ∧ s.take_profit = m.fib_0236 ∧
        1 ≤ cfg.num_limit_orders.getD 4 ∧
        s.entries.length = (cfg.num_limit_orders.getD 4).toNat ∧
        (cfg.num_limit_orders.getD 4 = 1 → s.entries = [m.net_center]) ∧
        (2 ≤ cfg.num_limit_orders.getD 4 →
          s.entries = (List.range (cfg.num_limit_orders.getD 4).toNat).map
            (fun (i : ℕ) => m.net_top - (m.net_top - m.net_bottom) /
              ((cfg.num_limit_orders.getD 4 - 1 : ℤ) : ℚ) * (i : ℚ)) ∧
          s.entries.head? = some m.net_top ∧
          s.entries.getLast? = some m.net_bottom)) ∧
    (∀ df cfg lvl sp bos ph pl z,
      55 ≤ df.length →
      compute_ms_and_bos df 4 4 = some (lvl, sp, bos) →
      bos < df.length - 1 →
      ((List.range df.length).filter fun j =>
        (detect_pivots df 1 1).1.getD j false && decide (bos < j) &&
          decide (j < df.length - 1)).getLast? = some ph →
      ((List.range df.length).filter fun j =>
        (detect_pivots df 1 1).2.getD j false &&
          decide (j < bos)).getLast? = some pl →
      (df.map Candle.low).getD pl 0 < (df.map Candle.high).getD ph 0 →
      onepad_zone_of_swing ((df.map Candle.low).getD pl 0)
        ((df.map Candle.high).getD ph 0) = some z →
      1 ≤ cfg.num_limit_orders.getD 4 →
      (onepad_generate_signal df cfg).isSome) := by
  constructor
  · intro df cfg s h
    obtain ⟨lvl, sp, bos, ph, pl, z, h55, hms, hbos, hph, hpl, hsw, hz, hN, rfl⟩ :=
      onepad_generate_signal_inv df cfg s h
    refine ⟨_, rfl, rfl, rfl, rfl, rfl, rfl, hN, ?_, ?_, ?_⟩
    · by_cases hN1 : cfg.num_limit_orders.getD 4 = 1
      · simp [hN1]
      · rw [if_neg hN1]
        simp only [List.length_map, List.length_range]
    · intro h1
      simp [h1]
    · intro h2
      have hne1 : ¬ cfg.num_limit_orders.getD 4 = 1 := by omega
      rw [if_neg hne1]
      have hpos : 0 < (cfg.num_limit_orders.getD 4).toNat := by omega
      refine ⟨rfl, ?_, ?_⟩
      · rw [head?_map_range _ _ hpos]
        norm_num
      · rw [getLast?_map_range _ _ hpos]
        have hcast : (((cfg.num_limit_orders.getD 4).toNat - 1 : ℕ) : ℚ) =
            ((cfg.num_limit_orders.getD 4 - 1 : ℤ) : ℚ) := by
          have h1 : ((cfg.num_limit_orders.getD 4).toNat : ℤ) =
              cfg.num_limit_orders.getD 4 := Int.toNat_of_nonneg (by omega)
          have h2 : 1 ≤ (cfg.num_limit_orders.getD 4).toNat := by omega
          push_cast [Nat.cast_sub h2]
          rw [show (((cfg.num_limit_orders.getD 4).toNat : ℕ) : ℚ) =
              (((cfg.num_limit_orders.getD 4).toNat : ℤ) : ℚ) by push_cast; ring]
          rw [h1]
        rw [hcast]
        have hne0 : ((cfg.num_limit_orders.getD 4 - 1 : ℤ) : ℚ) ≠ 0 := by
          have : (2 : ℤ) ≤ cfg.num_limit_orders.getD 4 := h2
          intro hc
          rw [Int.cast_eq_zero] at hc
          omega
        rw [div_mul_cancel₀ _ hne0]
        norm_num
  · intro df cfg lvl sp bos ph pl z h55 hms hbos hph hpl hsw hz hN
    simp only [onepad_generate_signal]
    rw [if_neg (by omega : ¬ df.length < 55), hms]
    dsimp only
    rw [if_neg (by omega : ¬ df.length - 1 ≤ bos), hph]
    dsimp only
    rw [hpl]
    dsimp only
    rw [if_neg (not_le.mpr hsw), hz]
    dsimp only
    rw [if_neg (by omega : ¬ cfg.num_limit_orders.getD 4 ≤ 0)]
    simp

/-- Out-of-range start: the scan falls through to the end-of-data exit. -/
lemma trade_scan_out (df : List Candle) (b : Bool) (sl tp : ℚ) (j : ℕ)
    (h : df.length ≤ j) :
    trade_scan df b sl tp j =
      (df.length - 1, ((df.map Candle.close).getLast?).getD 0) := by
  unfold trade_scan
  rw [dif_neg (by omega)]

/-- A long scan on which no bar triggers runs to the end-of-data exit. -/
lemma trade_scan_long_no_trigger (df : List Candle) (sl tp : ℚ) (i : ℕ)
    (h : ∀ j, i ≤ j → j < df.length →
      ¬ (df.getD j default).low ≤ sl ∧ ¬ tp ≤ (df.getD j default).high) :
    trade_scan df true sl tp i =
      (df.length - 1, ((df.map Candle.close).getLast?).getD 0) := by
  have key : ∀ k i, df.length - i ≤ k →
      (∀ j, i ≤ j → j < df.length →
        ¬ (df.getD j default).low ≤ sl ∧ ¬ tp ≤ (df.getD j default).high) →
      trade_scan df true sl tp i =
        (df.length - 1, ((df.map Candle.close).getLast?).getD 0) := by
    intro k
    induction k with
    | zero =>
      intro i hk hyp
      exact trade_scan_out df true sl tp i (by omega)
    | succ k ih =>
      intro i hk hyp
      by_cases hi : i < df.length
      · unfold trade_scan
        rw [dif_pos hi]
        obtain ⟨h1, h2⟩ := hyp i le_rfl hi
        rw [if_pos (rfl : (true : Bool) = true)]
        rw [if_neg h1, if_neg h2]
        exact ih (i + 1) (by omega) (fun j hj hjl => hyp j (by omega) hjl)
      · exact trade_scan_out df true sl tp i (by omega)
  exact key df.length i (by omega) h

/-- A long scan exits at the first triggering bar, checking the stop-loss
side before the take-profit side there. -/
lemma trade_scan_long_first_trigger (df : List Candle) (sl tp : ℚ)
    (i m : ℕ) (him : i ≤ m) (hm : m < df.length)
    (htrig : (df.getD m default).low ≤ sl ∨ tp ≤ (df.getD m default).high)
    (hbefore : ∀ j, i ≤ j → j < m →
      ¬ (df.getD j default).low ≤ sl ∧ ¬ tp ≤ (df.getD j default).high) :
    trade_scan df true sl tp i =
      (m, if (df.getD m default).low ≤ sl then sl else tp) := by
  have key : ∀ k i, m - i ≤ k → i ≤ m →
      (∀ j, i ≤ j → j < m →
        ¬ (df.getD j default).low ≤ sl ∧ ¬ tp ≤ (df.getD j default).high) →
      trade_scan df true sl tp i =
        (m, if (df.getD m default).low ≤ sl then sl else tp) := by
    intro k
    induction k with
    | zero =>
      intro i hk hle hyp
      have him' : i = m := by omega
      subst him'
      unfold trade_scan
      rw [dif_pos hm]
      rw [if_pos (rfl : (true : Bool) = true)]
      by_cases hsl : (df.getD i default).low ≤ sl
      · rw [if_pos hsl, if_pos hsl]
      · rw [if_neg hsl, if_neg hsl]
        have htp : tp ≤ (df.getD i default).high := htrig.resolve_left hsl
        rw [if_pos htp]
    | succ k ih =>
      intro i hk hle hyp
      by_cases heq : i = m
      · subst heq
        unfold trade_scan
        rw [dif_pos hm]
        rw [if_pos (rfl : (true : Bool) = true)]
        by_cases hsl : (df.getD i default).low ≤ sl
        · rw [if_pos hsl, if_pos hsl]
        · rw [if_neg hsl, if_neg hsl]
          have htp : tp ≤ (df.getD i default).high := htrig.resolve_left hsl
          rw [if_pos htp]
      · have hlt : i < m := by omega
        unfold trade_scan
        rw [dif_pos (by omega)]
        obtain ⟨h1, h2⟩ := hyp i le_rfl hlt
        rw [if_pos (rfl : (true : Bool) = true)]
        rw [if_neg h1, if_neg h2]
        exact ih (i + 1) (by omega) (by omega)
          (fun j hj hjl => hyp j (by omega) hjl)
  exact key (m - i) i le_rfl him hbefore

/-- A short scan on which no bar triggers runs to the end-of-data exit. -/
lemma trade_scan_short_no_trigger (df : List Candle) (sl tp : ℚ) (i : ℕ)
    (h : ∀ j, i ≤ j → j < df.length →
      ¬ sl ≤ (df.getD j default).high ∧ ¬ (df.getD j default).low ≤ tp) :
    trade_scan df false sl tp i =
      (df.length - 1, ((df.map Candle.close).getLast?).getD 0) := by
  have key : ∀ k i, df.length - i ≤ k →
      (∀ j, i ≤ j → j < df.length →
        ¬ sl ≤ (df.getD j default).high ∧ ¬ (df.getD j default).low ≤ tp) →
      trade_scan df false sl tp i =
        (df.length - 1, ((df.map Candle.close).getLast?).getD 0) := by
    intro k
    induction k with
    | zero =>
      intro i hk hyp
      exact trade_scan_out df false sl tp i (by omega)
    | succ k ih =>
      intro i hk hyp
      by_cases hi : i < df.length
      · unfold trade_scan
        rw [dif_pos hi]
        obtain ⟨h1, h2⟩ := hyp i le_rfl hi
        rw [if_neg Bool.false_ne_true]
        rw [if_neg h1, if_neg h2]
        exact ih (i + 1) (by omega) (fun j hj hjl => hyp j (by omega) hjl)
      · exact trade_scan_out df false sl tp i (by omega)
  exact key df.length i (by omega) h

/-- A short scan exits at the first triggering bar, checking the
stop-loss side before the take-profit side there. -/
lemma trade_scan_short_first_trigger (df : List Candle) (sl tp : ℚ)
    (i m : ℕ) (him : i ≤ m) (hm : m < df.length)
    (htrig : sl ≤ (df.getD m default).high ∨ (df.getD m default).low ≤ tp)
    (hbefore : ∀ j, i ≤ j → j < m →
      ¬ sl ≤ (df.getD j default).high ∧ ¬ (df.getD j default).low ≤ tp) :
    trade_scan df false sl tp i =
      (m, if sl ≤ (df.getD m default).high then sl else tp) := by
  have key : ∀ k i, m - i ≤ k → i ≤ m →
      (∀ j, i ≤ j → j < m →
        ¬ sl ≤ (df.getD j default).high ∧ ¬ (df.getD j default).low ≤ tp) →
      trade_scan df false sl tp i =
        (m, if sl ≤ (df.getD m default).high then sl else tp) := by
    intro k
    induction k with
    | zero =>
      intro i hk hle hyp
      have him' : i = m := by omega
      subst him'
      unfold trade_scan
      rw [dif_pos hm]
      rw [if_neg Bool.false_ne_true]
      by_cases hsl : sl ≤ (df.getD i default).high
      · rw [if_pos hsl, if_pos hsl]
      · rw [if_neg hsl, if_neg hsl]
        have htp : (df.getD i default).low ≤ tp := htrig.resolve_left hsl
        rw [if_pos htp]
    | succ k ih =>
      intro i hk hle hyp
      by_cases heq : i = m
      · subst heq
        unfold trade_scan
        rw [dif_pos hm]
        rw [if_neg Bool.false_ne_true]
        by_cases hsl : sl ≤ (df.getD i default).high
        · rw [if_pos hsl, if_pos hsl]
        · rw [if_neg hsl, if_neg hsl]
          have htp : (df.getD i default).low ≤ tp := htrig.resolve_left hsl
          rw [if_pos htp]
      · have hlt : i < m := by omega
        unfold trade_scan
        rw [dif_pos (by omega)]
        obtain ⟨h1, h2⟩ := hyp i le_rfl hlt
        rw [if_neg Bool.false_ne_true]
        rw [if_neg h1, if_neg h2]
        exact ih (i + 1) (by omega) (by omega)
          (fun j hj hjl => hyp j (by omega) hjl)
  exact key (m - i) i le_rfl him hbefore

/-- C2: `_simulate_trade` scans the bars after `start_idx`; for a long
trade it exits with `stop_loss` at the first bar whose low reaches it,
checking that before the take-profit side of the same bar (the exit price
at the first triggering bar is `stop_loss` whenever `low ≤ stop_loss`,
even if `high ≥ take_profit` too); a short trade mirrors the roles of
high and low; and when no bar triggers, the trade exits at the final
bar's index with the final bar's close.  The result is a deterministic
function of the inputs by construction (`simulate_trade` is a pure
function). -/
theorem simulate_trade_spec :
    (∀ (df : List Candle) (start : ℕ) (ep sl tp : ℚ) (m : ℕ),
      start + 1 ≤ m → m < df.length →
      ((df.getD m default).low ≤ sl ∨ tp ≤ (df.getD m default).high) →
      (∀ j, start + 1 ≤ j → j < m →
        ¬ (df.getD j default).low ≤ sl ∧ ¬ tp ≤ (df.getD j default).high) →
      simulate_trade df start "long" ep sl tp =
        (m, if (df.getD m default).low ≤ sl then sl else tp)) ∧
    (∀ (df : List Candle) (start : ℕ) (ep sl tp : ℚ),
      (∀ j, start + 1 ≤ j → j < df.length →
        ¬ (df.getD j default).low ≤ sl ∧ ¬ tp ≤ (df.getD j default).high) →
      simulate_trade df start "long" ep sl tp =
        (df.length - 1, ((df.map Candle.close).getLast?).getD 0)) ∧
    (∀ (df : List Candle) (start : ℕ) (ep sl tp : ℚ) (m : ℕ),
      start + 1 ≤ m → m < df.length →
      (sl ≤ (df.getD m default).high ∨ (df.getD m default).low ≤ tp) →
      (∀ j, start + 1 ≤ j → j < m →
        ¬ sl ≤ (df.getD j default).high ∧ ¬ (df.getD j default).low ≤ tp) →
      simulate_trade df start "short" ep sl tp =
        (m, if sl ≤ (df.getD m default).high then sl else tp)) ∧
    (∀ (df : List Candle) (start : ℕ) (ep sl tp : ℚ),
      (∀ j, start + 1 ≤ j → j < df.length →
        ¬ sl ≤ (df.getD j default).high ∧ ¬ (df.getD j default).low ≤ tp) →
      simulate_trade df start "short" ep sl tp =
        (df.length - 1, ((df.map Candle.close).getLast?).getD 0)) := by
  refine ⟨?_, ?_, ?_, ?_⟩
  · intro df start ep sl tp m him hm htrig hbefore
    unfold simulate_trade
    exact trade_scan_long_first_trigger df sl tp (start + 1) m him hm htrig hbefore
  · intro df start ep sl tp h
    unfold simulate_trade
    exact trade_scan_long_no_trigger df sl tp (start + 1) h
  · intro df start ep sl tp m him hm htrig hbefore
    unfold simulate_trade
    exact trade_scan_short_first_trigger df sl tp (start + 1) m him hm htrig hbefore
  · intro df start ep sl tp h
    unfold simulate_trade
    exact trade_scan_short_no_trigger df sl tp (start + 1) h

set_option maxRecDepth 100000 in
/-- Witness for C2: on the 53-bar SMA example, the long trade entered at
bar 50 with stop 97/5 exits on bar 51 (whose low 9 reaches the stop) at
the stop price. -/
theorem simulate_trade_spec_witness :
    simulate_trade (ex_df_sma 53) 50 "long" 20 (97/5) (103/5) =
      (51, if ((ex_df_sma 53).getD 51 default).low ≤ 97/5
           then (97 : ℚ)/5 else 103/5) :=
  simulate_trade_spec.1 (ex_df_sma 53) 50 20 (97/5) (103/5) 51
    (by omega) (by with_unfolding_all decide)
    (by with_unfolding_all decide) (by intro j h1 h2; omega)

/-- C8: `compute_equal_sized_orders` raises (an `Except.error`) exactly
when the entries list is empty, the risk budget `account_size * risk_pct`
is not positive, or every entry equals the stop loss (zero denominator);
and when sizing fails inside the backtest loop, the loop catches the
error and continues at the next bar with the trade list and balance
unchanged. -/
theorem sizing_error_policy :
    (∀ (entries : List ℚ) (sl acc risk : ℚ),
      (∃ msg, compute_equal_sized_orders entries sl acc risk =
        Except.error msg) ↔
      (entries = [] ∨ acc * risk ≤ 0 ∨ ∀ e ∈ entries, e = sl)) ∧
    (∀ (df : List Candle) (cfg : Config) (i : ℕ) (trades : List TradeRec)
        (balance : ℚ) (sig : Signal) (msg : String),
      i < df.length - 1 →
      generate_signal (df.take (i + 1)) cfg = some sig →
      sig.signal_type = "market_entry" →
      compute_position_size balance cfg.risk_pct (sig.entries.headD 0)
        sig.stop_loss = Except.error msg →
      backtest_loop df cfg i trades balance =
        backtest_loop df cfg (i + 1) trades balance) := by
  constructor
  · intro entries sl acc risk
    constructor
    · rintro ⟨msg, hmsg⟩
      by_cases h1 : entries = []
      · exact Or.inl h1
      · by_cases h2 : acc * risk ≤ 0
        · exact Or.inr (Or.inl h2)
        · refine Or.inr (Or.inr ?_)
          unfold compute_equal_sized_orders at hmsg
          rw [if_neg h1, if_neg h2] at hmsg
          by_cases h3 : (entries.map (fun e => |e - sl|)).sum = 0
          · exact (sizing_denom_eq_zero_iff entries sl).mp h3
          · rw [if_neg h3] at hmsg
            exact absurd hmsg (by simp)
    · intro h
      by_cases h1 : entries = []
      · exact ⟨_, by unfold compute_equal_sized_orders; rw [if_pos h1]⟩
      · by_cases h2 : acc * risk ≤ 0
        · refine ⟨"Risk amount must be positive.", ?_⟩
          unfold compute_equal_sized_orders
          rw [if_neg h1, if_pos h2]
        · have h3 : ∀ e ∈ entries, e = sl := by
            rcases h with ha | hb | hc
            · exact absurd ha h1
            · exact absurd hb h2
            · exact hc
          have hden : (entries.map (fun e => |e - sl|)).sum = 0 :=
            (sizing_denom_eq_zero_iff entries sl).mpr h3
          refine ⟨"Stop loss equals all entry prices, cannot size positions.", ?_⟩
          unfold compute_equal_sized_orders
          rw [if_neg h1, if_neg h2, if_pos hden]
  · intro df cfg i trades balance sig msg hlt hsig htype herr
    rw [backtest_loop]
    rw [dif_pos hlt, hsig]
    dsimp only
    rw [if_neg (not_ne_iff.mpr htype), herr]

set_option maxRecDepth 100000 in
/-- Witness for C8: on the 53-bar SMA series with `risk_pct = 0`, the
signal at bar 50 sizes to an error and the loop steps from bar 50 to
bar 51 with trades and balance untouched. -/
theorem sizing_error_policy_witness :
    backtest_loop (ex_df_sma 53) (ex_cfg_sma "sma" 0) 50 [] 1000 =
      backtest_loop (ex_df_sma 53) (ex_cfg_sma "sma" 0) 51 [] 1000 :=
  sizing_error_policy.2 (ex_df_sma 53) (ex_cfg_sma "sma" 0) 50 [] 1000
    ex_sig_sma "Risk amount must be positive."
    (by with_unfolding_all decide)
    (by with_unfolding_all rfl)
    (by with_unfolding_all rfl)
    (by with_unfolding_all rfl)

/-- The scan never returns an index below its start (while in range). -/
lemma trade_scan_fst_ge (df : List Candle) (b : Bool) (sl tp : ℚ) :
    ∀ i, i < df.length → i ≤ (trade_scan df b sl tp i).1 := by
  have key : ∀ k i, df.length - i ≤ k → i < df.length →
      i ≤ (trade_scan df b sl tp i).1 := by
    intro k
    induction k with
    | zero => intro i hk hi; omega
    | succ k ih =>
      intro i hk hi
      unfold trade_scan
      rw [dif_pos hi]
      by_cases hnext : i + 1 < df.length
      · cases b with
        | true =>
          rw [if_pos (rfl : (true : Bool) = true)]
          by_cases h1 : (df.getD i default).low ≤ sl
          · rw [if_pos h1]
          · rw [if_neg h1]
            by_cases h2 : tp ≤ (df.getD i default).high
            · rw [if_pos h2]
            · rw [if_neg h2]
              have := ih (i + 1) (by omega) hnext
              omega
        | false =>
          rw [if_neg Bool.false_ne_true]
          by_cases h1 : sl ≤ (df.getD i default).high
          · rw [if_pos h1]
          · rw [if_neg h1]
            by_cases h2 : (df.getD i default).low ≤ tp
            · rw [if_pos h2]
            · rw [if_neg h2]
              have := ih (i + 1) (by omega) hnext
              omega
      · cases b with
        | true =>
          rw [if_pos (rfl : (true : Bool) = true)]
          by_cases h1 : (df.getD i default).low ≤ sl
          · rw [if_pos h1]
          · rw [if_neg h1]
            by_cases h2 : tp ≤ (df.getD i default).high
            · rw [if_pos h2]
            · rw [if_neg h2, trade_scan_out df true sl tp (i + 1) (by omega)]
              dsimp only
              omega
        | false =>
          rw [if_neg Bool.false_ne_true]
          by_cases h1 : sl ≤ (df.getD i default).high
          · rw [if_pos h1]
          · rw [if_neg h1]
            by_cases h2 : (df.getD i default).low ≤ tp
            · rw [if_pos h2]
            · rw [if_neg h2, trade_scan_out df false sl tp (i + 1) (by omega)]
              dsimp only
              omega
  intro i hi
  exact key df.length i (by omega) hi

/-- The scan's exit index stays inside the series. -/
lemma trade_scan_fst_lt (df : List Candle) (b : Bool) (sl tp : ℚ)
    (hn : 0 < df.length) :
    ∀ i, (trade_scan df b sl tp i).1 < df.length := by
  have key : ∀ k i, df.length - i ≤ k →
      (trade_scan df b sl tp i).1 < df.length := by
    intro k
    induction k with
    | zero =>
      intro i hk
      rw [trade_scan_out df b sl tp i (by omega)]
      dsimp only
      omega
    | succ k ih =>
      intro i hk
      by_cases hi : i < df.length
      · unfold trade_scan
        rw [dif_pos hi]
        cases b with
        | true =>
          rw [if_pos (rfl : (true : Bool) = true)]
          by_cases h1 : (df.getD i default).low ≤ sl
          · rw [if_pos h1]; exact hi
          · rw [if_neg h1]
            by_cases h2 : tp ≤ (df.getD i default).high
            · rw [if_pos h2]; exact hi
            · rw [if_neg h2]
              exact ih (i + 1) (by omega)
        | false =>
          rw [if_neg Bool.false_ne_true]
          by_cases h1 : sl ≤ (df.getD i default).high
          · rw [if_pos h1]; exact hi
          · rw [if_neg h1]
            by_cases h2 : (df.getD i default).low ≤ tp
            · rw [if_pos h2]; exact hi
            · rw [if_neg h2]
              exact ih (i + 1) (by omega)
      · rw [trade_scan_out df b sl tp i (by omega)]
        dsimp only
        omega
  intro i
  exact key df.length i (by omega)

/-- Strict progress of the simulated exit past the entry bar. -/
lemma simulate_trade_exit_gt (df : List Candle) (start : ℕ)
    (dir : String) (ep sl tp : ℚ) (h : start < df.length - 1) :
    start < (simulate_trade df start dir ep sl tp).1 ∧
    (simulate_trade df start dir ep sl tp).1 < df.length := by
  unfold simulate_trade
  constructor
  · have := trade_scan_fst_ge df (dir == "long") sl tp (start + 1) (by omega)
    omega
  · exact trade_scan_fst_lt df (dir == "long") sl tp (by omega) (start + 1)

/-- Every trade the loop appends was entered at the current scan index
and closed strictly later, inside the series, with the bar timestamps
recorded. -/
lemma backtest_loop_trades_inv (df : List Candle) (cfg : Config) :
    ∀ k i trades balance t, df.length - i ≤ k →
      t ∈ (backtest_loop df cfg i trades balance).1 →
      t ∈ trades ∨ (i ≤ t.entry_index ∧ t.entry_index < df.length - 1 ∧
        t.entry_index < t.exit_index ∧ t.exit_index < df.length ∧
        t.opened_at = (df.getD t.entry_index default).ts ∧
        t.closed_at = (df.getD t.exit_index default).ts) := by
  intro k
  induction k with
  | zero =>
    intro i trades balance t hk hmem
    rw [backtest_loop, dif_neg (by omega)] at hmem
    exact Or.inl hmem
  | succ k ih =>
    intro i trades balance t hk hmem
    by_cases hi : i < df.length - 1
    · rw [backtest_loop, dif_pos hi] at hmem
      cases hsig : generate_signal (df.take (i + 1)) cfg with
      | none =>
        rw [hsig] at hmem
        rcases ih (i + 1) trades balance t (by omega) hmem with hl | hr
        · exact Or.inl hl
        · exact Or.inr ⟨by omega, hr.2⟩
      | some sig =>
        rw [hsig] at hmem
        dsimp only at hmem
        by_cases htype : sig.signal_type ≠ "market_entry"
        · rw [if_pos htype] at hmem
          rcases ih (i + 1) trades balance t (by omega) hmem with hl | hr
          · exact Or.inl hl
          · exact Or.inr ⟨by omega, hr.2⟩
        · rw [if_neg htype] at hmem
          cases herr : compute_position_size balance cfg.risk_pct
              (sig.entries.headD 0) sig.stop_loss with
          | error e =>
            rw [herr] at hmem
            rcases ih (i + 1) trades balance t (by omega) hmem with hl | hr
            · exact Or.inl hl
            · exact Or.inr ⟨by omega, hr.2⟩
          | ok size =>
            rw [herr] at hmem
            dsimp only at hmem
            obtain ⟨hgt, hlt⟩ := simulate_trade_exit_gt df i sig.direction
              (sig.entries.headD 0) sig.stop_loss sig.take_profit hi
            rcases ih _ _ _ t (by omega) hmem with hl | hr
            · rcases List.mem_append.mp hl with hl1 | hl2
              · exact Or.inl hl1
              · simp only [List.mem_singleton] at hl2
                subst hl2
                exact Or.inr ⟨le_refl _, hi, hgt, hlt, rfl, rfl⟩
            · refine Or.inr ⟨?_, hr.2⟩
              have : i + 1 ≤ max ((simulate_trade df i sig.direction
                (sig.entries.headD 0) sig.stop_loss sig.take_profit).1 + 1)
                (i + 1) := le_max_right _ _
              omega
    · rw [backtest_loop, dif_neg hi] at hmem
      exact Or.inl hmem

/-- C10: every trade recorded by the backtest loop exits strictly after
it was entered (`entry_index < exit_index` and, given the strictly
increasing timestamps of the data model, `opened_at < closed_at`); the
simulated exit always lands strictly past the entry bar and inside the
series, so the source's `i = exit_idx + 1` step — written
`max (exit_idx + 1) (i + 1)` in this embedding — strictly increases the
scan index, exactly as the `i + 1` steps on skipped bars do.  The loop
is a total function (its recursion on `df.length - i` is accepted by the
termination checker), which is the termination claim itself. -/
theorem backtest_scan_progress :
    (∀ df cfg t, t ∈ (run_backtest df cfg).1 →
      50 ≤ t.entry_index ∧ t.entry_index < t.exit_index ∧
      t.exit_index < df.length) ∧
    (∀ df cfg t, t ∈ (run_backtest df cfg).1 →
      (∀ n, n < df.length → ∀ j, j < n →
        (df.getD j default).ts < (df.getD n default).ts) →
      t.opened_at < t.closed_at) ∧
    (∀ (df : List Candle) (start : ℕ) (dir : String) (ep sl tp : ℚ),
      start < df.length - 1 →
      start < (simulate_trade df start dir ep sl tp).1 ∧
      (simulate_trade df start dir ep sl tp).1 < df.length) ∧
    (∀ (df : List Candle) (i : ℕ) (dir : String) (ep sl tp : ℚ),
      i < df.length - 1 →
      max ((simulate_trade df i dir ep sl tp).1 + 1) (i + 1) =
        (simulate_trade df i dir ep sl tp).1 + 1) := by
  refine ⟨?_, ?_, ?_, ?_⟩
  · intro df cfg t hmem
    rcases backtest_loop_trades_inv df cfg df.length 50 [] cfg.account_size t
      (by omega) hmem with hl | hr
    · exact absurd hl (by simp)
    · exact ⟨hr.1, hr.2.2.1, hr.2.2.2.1⟩
  · intro df cfg t hmem hmono
    rcases backtest_loop_trades_inv df cfg df.length 50 [] cfg.account_size t
      (by omega) hmem with hl | hr
    · exact absurd hl (by simp)
    · obtain ⟨_, _, hlt, hin, hopen, hclose⟩ := hr
      rw [hopen, hclose]
      exact hmono t.exit_index hin t.entry_index hlt
  · intro df start dir ep sl tp h
    exact simulate_trade_exit_gt df start dir ep sl tp h
  · intro df i dir ep sl tp h
    have := (simulate_trade_exit_gt df i dir ep sl tp h).1
    omega

set_option maxRecDepth 100000 in
/-- Witness for C10: on the 53-bar SMA example the simulated exit from
bar 50 lands strictly later and inside the series. -/
theorem backtest_scan_progress_witness :
    50 < (simulate_trade (ex_df_sma 53) 50 "long" 20 (97/5) (103/5)).1 ∧
    (simulate_trade (ex_df_sma 53) 50 "long" 20 (97/5) (103/5)).1 <
      (ex_df_sma 53).length :=
  backtest_scan_progress.2.2.1 (ex_df_sma 53) 50 "long" 20 (97/5) (103/5)
    (by with_unfolding_all decide)

/-- C9 (amended): the dispatcher lower-cases the configured strategy name
(default `"1pad"`); with fewer bars than the selected strategy's minimum
history (51 for "sma", 55 for "1pad") it returns no signal, and when the
lower-cased name is neither `"sma"` nor `"1pad"` it returns no signal —
always by returning `none`, never by raising (the embedding is a total
function, as is the source path, which contains no `raise`). -/
theorem generate_signal_min_history :
    (∀ df cfg, (cfg.strategy.getD "1pad").toLower = "sma" →
      df.length < 51 → generate_signal df cfg = none) ∧
    (∀ df cfg, (cfg.strategy.getD "1pad").toLower = "1pad" →
      df.length < 55 → generate_signal df cfg = none) ∧
    (∀ df cfg, (cfg.strategy.getD "1pad").toLower ≠ "sma" →
      (cfg.strategy.getD "1pad").toLower ≠ "1pad" →
      generate_signal df cfg = none) := by
  refine ⟨?_, ?_, ?_⟩
  · intro df cfg hname hlen
    simp only [generate_signal]
    rw [if_pos hname]
    simp only [sma_generate_signal, if_pos hlen]
  · intro df cfg hname hlen
    simp only [generate_signal]
    rw [if_neg (by rw [hname]; decide), if_pos hname]
    simp only [onepad_generate_signal, if_pos hlen]
  · intro df cfg h1 h2
    simp only [generate_signal]
    rw [if_neg h1, if_neg h2]

set_option maxRecDepth 100000 in
/-- C9 counterexample: a configuration whose strategy name is `"SMA"` —
literally neither `"sma"` nor `"1pad"` — still dispatches (after
lower-casing) to the SMA strategy and emits a signal on the 51-bar
crossover series, so the claim as stated is false of the code. -/
theorem generate_signal_unknown_name_counterexample :
    ("SMA" : String) ≠ "sma" ∧ ("SMA" : String) ≠ "1pad" ∧
    generate_signal (ex_df_sma 51) (ex_cfg_sma "SMA" (1/100)) ≠ none := by
  refine ⟨by decide, by decide, by with_unfolding_all decide⟩

/-- Witness for C9's amended theorem: a genuinely unknown name (even
after lower-casing) yields no signal. -/
theorem generate_signal_min_history_witness :
    generate_signal (ex_df_sma 51) (ex_cfg_sma "macd" (1/100)) = none :=
  generate_signal_min_history.2.2 (ex_df_sma 51) (ex_cfg_sma "macd" (1/100))
    (by with_unfolding_all decide) (by with_unfolding_all decide)

set_option maxRecDepth 100000 in
/-- C4 counterexample: with `num_limit_orders = 1` the 1pad strategy
emits a bundle whose single entry is the zone CENTER, strictly inside
`(net_bottom, net_top)` — so for `N = 1` the entries are not "equally
spaced from zone_top down to zone_bottom inclusive" (the single price is
neither endpoint), refuting the claim's "for every N ≥ 1". -/
theorem onepad_single_order_counterexample :
    onepad_generate_signal ex_df_1pad (ex_cfg_1pad 1) = some (ex_sig_1pad 1) ∧
    (ex_sig_1pad 1).entries = [(ex_meta_1pad 1).net_center] ∧
    (ex_meta_1pad 1).net_bottom < (ex_meta_1pad 1).net_center ∧
    (ex_meta_1pad 1).net_center < (ex_meta_1pad 1).net_top := by
  refine ⟨by with_unfolding_all rfl, by with_unfolding_all rfl,
    by with_unfolding_all decide, by with_unfolding_all decide⟩

set_option maxRecDepth 100000 in
/-- Witness for C4's amended theorem: with 4 limit orders on the example
series the entries run from `net_top` to `net_bottom` inclusive; the
final conjunct records that the signal fires although the evaluation
bar's whole range lies strictly above the zone (no zone touch). -/
theorem onepad_signal_bundle_shape_witness :
    (ex_sig_1pad 4).entries.head? = some ((ex_meta_1pad 4).net_top) ∧
    (ex_sig_1pad 4).entries.getLast? = some ((ex_meta_1pad 4).net_bottom) ∧
    (ex_sig_1pad 4).entries.length = 4 ∧
    (ex_meta_1pad 4).net_top < (ex_df_1pad.getD 54 default).low := by
  obtain ⟨m, hmeta, hstrat, htype, hdir, hsl, htp, hN, hlen, hone, hspace⟩ :=
    onepad_signal_bundle_shape.1 ex_df_1pad (ex_cfg_1pad 4) (ex_sig_1pad 4)
      (by with_unfolding_all rfl)
  obtain ⟨hent, hhead, hlast⟩ := hspace (by decide)
  have hm : m = ex_meta_1pad 4 := by
    unfold ex_meta_1pad
    rw [hmeta]
  refine ⟨?_, ?_, ?_, by with_unfolding_all decide⟩
  · rw [← hm]; exact hhead
  · rw [← hm]; exact hlast
  · rw [hlen]; decide

set_option maxRecDepth 100000 in
/-- Witness for C5: the zone carried by the emitted example signal sits
inside the swing, `fib_1 ≤ net_bottom < net_top ≤ fib_0`. -/
theorem onepad_zone_within_swing_witness :
    ∃ m, (ex_sig_1pad 4).meta = SignalMeta.onepadMeta m ∧
      m.fib_1 ≤ m.net_bottom ∧ m.net_bottom < m.net_top ∧
      m.net_top ≤ m.fib_0 :=
  onepad_zone_within_swing.2.2 ex_df_1pad (ex_cfg_1pad 4) (ex_sig_1pad 4)
    (by with_unfolding_all rfl)

set_option maxRecDepth 100000 in
/-- Witness for C6: the 51-bar crossover series fires the SMA signal
(fast 11 crosses above slow 51/5 with both previous averages at 10). -/
theorem sma_generate_signal_spec_witness :
    (sma_generate_signal (ex_df_sma 51) (ex_cfg_sma "sma" (1/100))).isSome := by
  obtain ⟨fn, sn, fp, sp, e1, e2, e3, e4, hiff, hshape⟩ :=
    (sma_generate_signal_spec (ex_df_sma 51) (ex_cfg_sma "sma" (1/100))).2
      (by with_unfolding_all decide)
  have h1 : fn = 11 := by
    have h : rolling_mean ((ex_df_sma 51).map Candle.close) 10
        ((ex_df_sma 51).length - 1) = some 11 := by with_unfolding_all rfl
    rw [h] at e1
    exact (Option.some.inj e1).symm
  have h2 : sn = 51/5 := by
    have h : rolling_mean ((ex_df_sma 51).map Candle.close) 50
        ((ex_df_sma 51).length - 1) = some (51/5) := by with_unfolding_all rfl
    rw [h] at e2
    exact (Option.some.inj e2).symm
  have h3 : fp = 10 := by
    have h : rolling_mean ((ex_df_sma 51).map Candle.close) 10
        ((ex_df_sma 51).length - 1 - 1) = some 10 := by with_unfolding_all rfl
    rw [h] at e3
    exact (Option.some.inj e3).symm
  have h4 : sp = 10 := by
    have h : rolling_mean ((ex_df_sma 51).map Candle.close) 50
        ((ex_df_sma 51).length - 1 - 1) = some 10 := by with_unfolding_all rfl
    rw [h] at e4
    exact (Option.some.inj e4).symm
  refine hiff.mpr ⟨?_, ?_⟩
  · rw [h1, h2]; with_unfolding_all decide
  · rw [h3, h4]

set_option maxRecDepth 100000 in
/-- Witness for C7: on the 51-bar SMA series, bar 10 (inside the flat
stretch) is a pivot high for `left = right = 1` since its high ties the
window maximum. -/
theorem detect_pivots_spec_witness :
    (detect_pivots (ex_df_sma 51) 1 1).1.getD 10 false = true := by
  refine (detect_pivots_spec (ex_df_sma 51) 1 1 10).1.mpr
    ⟨by omega, by with_unfolding_all decide, ?_⟩
  intro j h1 h2
  interval_cases j <;> with_unfolding_all decide
